import Mathlib

/-!
Verification of the BARS container / AMTA metadata / BWAV asset engine of
`scripts/mk8dx_audio_classes.py`.

Conventions of the shallow embedding:
* Byte buffers are `List Nat` (each element a byte value `< 256` by construction).
* Python file/`BytesIO` readers are modelled by an explicit position into the
  buffer; `read n` returns `min n (len - pos)` bytes, exactly like Python.
* Python `BytesIO` writers (which zero-fill when writing past the end and
  overwrite in the middle) are modelled by `OutBuf`.
* Code that can raise (`struct.error`, `IndexError`, failed `assert`) is
  modelled in the `Option` monad; `none` is an uncaught Python exception.
* `struct` float fields ("f") are stored as their 32-bit byte patterns; the
  model never does float arithmetic on them.  The single float computation the
  claims touch, `get_peak_volume`, is `max |sample| / 32768` with
  `max ≤ 32768`; that value is exactly representable in binary floating point,
  so it is modelled as the exact rational.
* Entry names are modelled as byte strings (Python handles `str` and encodes
  to UTF-8 at the hashing/compare boundaries).
-/

set_option maxRecDepth 100000

/-! ### Alignment utilities (source: `pad_count` / `pad_till`, lines 15-24) -/

def pad_count (pos multiplier : Nat) : Nat :=
  let diff := pos % multiplier
  if diff = 0 then 0 else multiplier - diff

def pad_till (pos multiplier : Nat) : Nat :=
  pos + pad_count pos multiplier

/-! ### Byte-level helpers -/

/-- `reader.read` starting at `start`, at most `len` bytes (short reads allowed). -/
def subBytes (l : List Nat) (start len : Nat) : List Nat :=
  (l.drop start).take len

def bytesToNatLE (l : List Nat) : Nat :=
  l.foldr (fun b acc => b % 256 + 256 * acc) 0

inductive Bom where
  | be
  | le
deriving DecidableEq

def bomBytes : Bom → List Nat
  | .be => [0xFE, 0xFF]
  | .le => [0xFF, 0xFE]

/-- Interpret a byte list as an unsigned integer with the given byte order. -/
def wordAt (bom : Bom) (l : List Nat) : Nat :=
  match bom with
  | .le => bytesToNatLE l
  | .be => bytesToNatLE l.reverse

def natToLE : Nat → Nat → List Nat
  | 0, _ => []
  | w + 1, n => n % 256 :: natToLE w (n / 256)

/-- `struct.pack` of an unsigned 32-bit value (values are in range at every
call site reached from parsed data; Python would raise out of range). -/
def packU32 (bom : Bom) (n : Nat) : List Nat :=
  match bom with
  | .le => natToLE 4 (n % 2 ^ 32)
  | .be => (natToLE 4 (n % 2 ^ 32)).reverse

def packU16 (bom : Bom) (n : Nat) : List Nat :=
  match bom with
  | .le => natToLE 2 (n % 2 ^ 16)
  | .be => (natToLE 2 (n % 2 ^ 16)).reverse

/-- Two's-complement encoding of a signed 16-bit value ("h"). -/
def packS16 (bom : Bom) (i : Int) : List Nat :=
  packU16 bom (i % 65536).toNat

/-- Signed 16-bit interpretation of an unsigned word. -/
def toS16 (n : Nat) : Int :=
  if n % 65536 < 32768 then (n % 65536 : Int) else (n % 65536 : Int) - 65536

/-- `struct.unpack` of a run of "h" values; callers check the even length. -/
def unpackShorts (bom : Bom) : List Nat → List Int
  | b0 :: b1 :: rest => toS16 (wordAt bom [b0, b1]) :: unpackShorts bom rest
  | _ => []

/-- `struct.pack` of a run of "h" values; `none` when a value is out of the
signed 16-bit range (Python raises `struct.error`). -/
def packShortsBytes (bom : Bom) : List Int → Option (List Nat)
  | [] => some []
  | s :: rest =>
    if -32768 ≤ s ∧ s ≤ 32767 then
      (packShortsBytes bom rest).map (fun tl => packS16 bom s ++ tl)
    else
      none

/-- Split a byte list into consecutive unsigned 32-bit words. -/
def splitU32s (bom : Bom) : List Nat → List Nat
  | b0 :: b1 :: b2 :: b3 :: rest => wordAt bom [b0, b1, b2, b3] :: splitU32s bom rest
  | _ => []

/-! ### CRC32 (source: `calculate_crc32_hash`, line 12; `binascii.crc32`) -/

def crcStep (x : Nat) : Nat :=
  if x % 2 = 1 then Nat.xor (x / 2) 0xEDB88320 else x / 2

def crcIter : Nat → Nat → Nat
  | 0, x => x
  | n + 1, x => crcIter n (crcStep x)

/-- `binascii.crc32(data, crc)` (standard reflected CRC-32). -/
def crc32Update (crc : Nat) (data : List Nat) : Nat :=
  let c := data.foldl (fun c b => crcIter 8 (Nat.xor c (b % 256))) (Nat.xor crc 0xFFFFFFFF)
  Nat.xor c 0xFFFFFFFF

def calculate_crc32_hash (name : List Nat) : Nat :=
  crc32Update 0 name

/-! ### Nibble helpers (source lines 38-42) -/

def get_high_nibble (byte : Nat) : Nat :=
  byte / 16 % 16

def get_low_nibble (byte : Nat) : Nat :=
  byte % 16

/-! ### OutBuf: Python `BytesIO` opened for writing -/

structure OutBuf where
  data : List Nat
  pos : Nat
deriving DecidableEq

/-- Write bytes at the current position: zero-fill any gap past the end,
overwrite in the middle, keep the tail beyond the written region. -/
def wWrite (w : OutBuf) (bs : List Nat) : OutBuf :=
  { data := w.data.take w.pos ++ List.replicate (w.pos - w.data.length) 0 ++ bs
      ++ w.data.drop (w.pos + bs.length),
    pos := w.pos + bs.length }

def wSeek (w : OutBuf) (p : Nat) : OutBuf :=
  { w with pos := p }

/-! ### AMTA metadata records (source lines 68-250) -/

/-- The "unknown" section: one u32 plus five float32 values, all kept as their
32-bit byte patterns (`struct` "I5f", source lines 68-89). -/
structure AmtaUnknownSection where
  unk_1 : Nat
  unk_2 : Nat
  unk_3 : Nat
  unk_4 : Nat
  unk_5 : Nat
  unk_6 : Nat
deriving DecidableEq

def amtaUnknownOfBytes (bom : Bom) (bs : List Nat) : AmtaUnknownSection :=
  match splitU32s bom bs with
  | [a, b, c, d, e, f] => ⟨a, b, c, d, e, f⟩
  | _ => ⟨0, 0, 0, 0, 0, 0⟩

def AmtaUnknownSection.to_bytes (s : AmtaUnknownSection) (bom : Bom) : List Nat :=
  packU32 bom s.unk_1 ++ packU32 bom s.unk_2 ++ packU32 bom s.unk_3 ++
    packU32 bom s.unk_4 ++ packU32 bom s.unk_5 ++ packU32 bom s.unk_6

structure AmtaUnknown2Record where
  unk_1 : Nat
  unk_2 : Nat
  unk_3 : Nat
  unk_4 : Nat
deriving DecidableEq

structure AmtaUnknown2Section where
  count : Nat
  records : List AmtaUnknown2Record
deriving DecidableEq

/-- The record-reading loop of `AmtaUnknown2Section.__init__` (lines 115-130):
stops early on a short chunk, then resets `count` to what was actually read. -/
def amtaUnknown2Records (bom : Bom) (buf : List Nat) : Nat → Nat → List AmtaUnknown2Record
  | 0, _ => []
  | n + 1, pos =>
    let chunk := subBytes buf pos 16
    if chunk.length < 16 then
      []
    else
      match splitU32s bom chunk with
      | [a, b, c, d] => ⟨a, b, c, d⟩ :: amtaUnknown2Records bom buf n (pos + 16)
      | _ => []

def amtaUnknown2Parse (bom : Bom) (buf : List Nat) (pos : Nat) : Option AmtaUnknown2Section :=
  let cntB := subBytes buf pos 4
  if cntB.length = 4 then
    let cnt := wordAt bom cntB
    let recs := amtaUnknown2Records bom buf cnt (pos + 4)
    some ⟨recs.length, recs⟩
  else
    none

structure Amta where
  magic : List Nat
  bom : Bom
  version_minor : Nat
  version_major : Nat
  size : Nat
  empty_offset : Nat
  UNKNOWN_offset : Nat
  UNKNOWN2_offset : Nat
  MINF_offset : Nat
  STRINGS_offset : Nat
  empty_offset_2 : Nat
  DATA_size : Nat
  name_crc : Nat
  flags : Nat
  tracks_per_channel : Nat
  channel_count : Nat
  rest_of_data : List Nat
  UNKNOWN_section : AmtaUnknownSection
  UNKNOWN2_section : Option AmtaUnknown2Section
  rest_of_file : List Nat
  name : List Nat
  raw_bytes : Option (List Nat)
deriving DecidableEq

def amtaDefault : Amta :=
  { magic := [], bom := .le, version_minor := 0, version_major := 0, size := 0,
    empty_offset := 0, UNKNOWN_offset := 0, UNKNOWN2_offset := 0, MINF_offset := 0,
    STRINGS_offset := 0, empty_offset_2 := 0, DATA_size := 0, name_crc := 0,
    flags := 0, tracks_per_channel := 0, channel_count := 0, rest_of_data := [],
    UNKNOWN_section := ⟨0, 0, 0, 0, 0, 0⟩, UNKNOWN2_section := none,
    rest_of_file := [], name := [], raw_bytes := none }

/-- First index at which the byte pattern `STRG` occurs. -/
def findSTRG : List Nat → Option Nat
  | [] => none
  | a :: rest =>
    if (a :: rest).take 4 = [83, 84, 82, 71] then some 0
    else (findSTRG rest).map (· + 1)

/-- Name extraction from the trailing bytes (source lines 210-221). -/
def amtaExtractName (bom : Bom) (rest : List Nat) : List Nat :=
  match findSTRG rest with
  | some idx =>
    let lenB := subBytes rest (idx + 4) 4
    if lenB.length = 4 then
      let str_len := wordAt bom lenB
      subBytes rest (idx + 8) (str_len - 1)
    else
      []
  | none => rest.takeWhile (· ≠ 0)

/-- `Amta.__init__` reading from `buf` at absolute position `start`
(source lines 165-221), except for the verbatim-capture step, which
`amtaParse` adds below.  `none` is a raised exception. -/
def amtaParseMain (buf : List Nat) (start : Nat) : Option Amta :=
  let magic := subBytes buf start 4
  if magic ≠ [65, 77, 84, 65] then none else
  let bomB := subBytes buf (start + 4) 2
  if bomB = [0xFE, 0xFF] ∨ bomB = [0xFF, 0xFE] then
    let bom : Bom := if bomB = [0xFE, 0xFF] then .be else .le
    let hdr := subBytes buf (start + 6) 6
    if hdr.length ≠ 6 then none else
    let version_minor := hdr.getD 0 0
    let version_major := hdr.getD 1 0
    let size := wordAt bom (hdr.drop 2)
    let offs := subBytes buf (start + 12) 24
    if offs.length ≠ 24 then none else
    match splitU32s bom offs with
    | [empty_offset, uOff, u2Off, minfOff, strOff, empty_offset_2] =>
      let off_pos := start + 36
      let uBytes := subBytes buf (start + uOff) 24
      if uBytes.length ≠ 24 then none else
      let uSection := amtaUnknownOfBytes bom uBytes
      let u2Result : Option (Option AmtaUnknown2Section) :=
        if u2Off > 0 then (amtaUnknown2Parse bom buf (start + u2Off)).map some
        else some none
      match u2Result with
      | none => none
      | some u2Section =>
        let tag := subBytes buf off_pos 4
        let posAfterTag := if tag = [68, 65, 84, 65] then off_pos + tag.length
          else off_pos + tag.length - 4
        let lenB := subBytes buf posAfterTag 4
        let posAfterLen := posAfterTag + lenB.length
        let dataSize := if lenB.length = 4 then wordAt bom lenB else 0
        let payload := if dataSize > 0 then subBytes buf posAfterLen dataSize else []
        let posAfterPayload := posAfterLen + payload.length
        let remaining := start + size - posAfterPayload
        let rest_of_file := if remaining ≠ 0 then subBytes buf posAfterPayload remaining else []
        let name := amtaExtractName bom rest_of_file
        some { magic := magic, bom := bom, version_minor := version_minor,
               version_major := version_major, size := size,
               empty_offset := empty_offset, UNKNOWN_offset := uOff,
               UNKNOWN2_offset := u2Off, MINF_offset := minfOff,
               STRINGS_offset := strOff, empty_offset_2 := empty_offset_2,
               DATA_size := dataSize, name_crc := 0, flags := 0,
               tracks_per_channel := 0, channel_count := 0,
               rest_of_data := payload, UNKNOWN_section := uSection,
               UNKNOWN2_section := u2Section, rest_of_file := rest_of_file,
               name := name, raw_bytes := none }
    | _ => none
  else
    none

/-- `Amta.__init__`: the parse above followed by the verbatim raw-bytes
capture of `reader.read(self.size)` from the record's start (lines 223-225). -/
def amtaParse (buf : List Nat) (start : Nat) : Option Amta :=
  (amtaParseMain buf start).map
    (fun a => { a with raw_bytes := some (subBytes buf start a.size) })

/-- `Amta.get_size` (lines 246-250).  `if self.raw_bytes:` is Python
truthiness: `None` and the empty byte string both fall through. -/
def Amta.get_size (a : Amta) : Nat :=
  match a.raw_bytes with
  | some l =>
    if l ≠ [] then l.length
    else pad_till (4 + 2 + 6 + 24 + 4 + 4 + a.rest_of_data.length + a.rest_of_file.length) 4
  | none => pad_till (4 + 2 + 6 + 24 + 4 + 4 + a.rest_of_data.length + a.rest_of_file.length) 4

/-- The synthesized branch of `Amta.write` (raw bytes absent or empty),
lines 232-244 of the source. -/
def Amta.writeFresh (a : Amta) (startPos : Nat) : List Nat :=
  let size := Amta.get_size a
  let body := a.magic ++ bomBytes a.bom ++
    [a.version_minor % 256, a.version_major % 256] ++ packU32 a.bom size ++
    packU32 a.bom a.empty_offset ++ packU32 a.bom a.UNKNOWN_offset ++
    packU32 a.bom a.UNKNOWN2_offset ++ packU32 a.bom a.MINF_offset ++
    packU32 a.bom a.STRINGS_offset ++ packU32 a.bom a.empty_offset_2 ++
    [68, 65, 84, 65] ++ packU32 a.bom a.rest_of_data.length ++
    a.rest_of_data ++ a.rest_of_file
  body ++ List.replicate (pad_count (startPos + body.length) 4) 0

/-- `Amta.write` (lines 228-244), emitting at absolute writer position
`startPos` (the trailing `pad_to_file(writer, 4)` depends on it). -/
def Amta.write (a : Amta) (startPos : Nat) : List Nat :=
  match a.raw_bytes with
  | some l =>
    if l ≠ [] then l else Amta.writeFresh a startPos
  | none => Amta.writeFresh a startPos

/-! ### BWAV assets (source lines 252-715) -/

structure BwavFileHeader where
  magic : List Nat
  bom : Bom
  version_minor : Nat
  version_major : Nat
  crc : Nat
  is_prefetch : Bool
  num_channels : Nat
deriving DecidableEq

structure BwavChannelInfo where
  codec : Nat
  channel_pan : Nat
  sample_rate : Nat
  num_samples_nonprefetch : Nat
  num_samples_this : Nat
  dsp_adpcm_coefficients : List Nat
  absolute_start_samples_nonprefetch : Nat
  absolute_start_samples_this : Nat
  is_looping : Bool
  loop_end_sample : Nat
  loop_start_sample : Nat
  predictor_scale : Nat
  history_sample_1 : Int
  history_sample_2 : Int
  padding : Nat
deriving DecidableEq

/-- A parsed (structured) BWAV; the Python object with `raw_bytes is None`.
`decoded_channels` is the per-channel decode cache (line 371). -/
structure Bwav where
  header : BwavFileHeader
  channel_infos : List BwavChannelInfo
  channel_samples : List (List Nat)
  decoded_channels : List (Option (List Int))
deriving DecidableEq

/-- The Python `RawAsset` / the raw-bytes mode of `Bwav` (unknown magic). -/
structure RawAsset where
  data : List Nat
deriving DecidableEq

inductive Asset where
  | raw (r : RawAsset)
  | bwav (w : Bwav)
deriving DecidableEq

/-- The channel-info reading loop (lines 353-354; `BwavChannelInfo.__init__`,
lines 283-306).  The 32 coefficient bytes are a bare `read` (short reads
allowed); the two `struct.unpack` runs need their exact byte counts. -/
def bwavChannelInfosParse (bom : Bom) (data : List Nat) : Nat → Nat → Option (List BwavChannelInfo)
  | 0, _ => some []
  | n + 1, pos =>
    let head16 := subBytes data pos 16
    if head16.length ≠ 16 then none else
    let coeffs := subBytes data (pos + 16) 32
    let tail28 := subBytes data (pos + 48) 28
    if tail28.length ≠ 28 then none else
    match splitU32s bom (head16.drop 4), splitU32s bom (tail28.take 20) with
    | [rate, nsnp, nst], [asnp, ast, looping, loopEnd, loopStart] =>
      let ci : BwavChannelInfo :=
        { codec := wordAt bom (head16.take 2),
          channel_pan := wordAt bom (subBytes head16 2 2),
          sample_rate := rate, num_samples_nonprefetch := nsnp,
          num_samples_this := nst, dsp_adpcm_coefficients := coeffs,
          absolute_start_samples_nonprefetch := asnp,
          absolute_start_samples_this := ast, is_looping := looping = 1,
          loop_end_sample := loopEnd, loop_start_sample := loopStart,
          predictor_scale := wordAt bom (subBytes tail28 20 2),
          history_sample_1 := toS16 (wordAt bom (subBytes tail28 22 2)),
          history_sample_2 := toS16 (wordAt bom (subBytes tail28 24 2)),
          padding := wordAt bom (subBytes tail28 26 2) }
      (bwavChannelInfosParse bom data n (pos + 76)).map (ci :: ·)
    | _, _ => none

/-- The per-channel sample reading loop (lines 356-366).  For non-Opus
codecs the byte count is `size` minus the LAST channel's start offset;
for Opus it comes from the embedded packet-stream length field. -/
def bwavChannelSamplesParse (bom : Bom) (data : List Nat) (size lastAst : Nat) :
    List BwavChannelInfo → Option (List (List Nat))
  | [] => some []
  | ci :: rest =>
    let start := ci.absolute_start_samples_this
    if ci.codec = 2 then
      let szB := subBytes data (start + 36) 4
      if szB.length ≠ 4 then none else
      let ssize := wordAt bom szB + 40
      (bwavChannelSamplesParse bom data size lastAst rest).map (subBytes data start ssize :: ·)
    else
      let sdiff : Int := (size : Int) - (lastAst : Int)
      let bytes := if 0 < sdiff then subBytes data start sdiff.toNat else []
      (bwavChannelSamplesParse bom data size lastAst rest).map (bytes :: ·)

/-- `Bwav.__init__` from an in-memory buffer of `size` bytes
(`Bwav(BytesIO(data), len(data))`, lines 318-371). -/
def bwavParse (data : List Nat) (size : Nat) : Option Asset :=
  if subBytes data 0 4 ≠ [66, 87, 65, 86] then
    some (.raw ⟨subBytes data 0 size⟩)
  else
  let bomB := subBytes data 4 2
  if bomB = [0xFE, 0xFF] ∨ bomB = [0xFF, 0xFE] then
    let bom : Bom := if bomB = [0xFE, 0xFF] then .be else .le
    let hdr := subBytes data 6 10
    if hdr.length ≠ 10 then none else
    let num_channels := wordAt bom (subBytes hdr 8 2)
    if num_channels = 0 then none else
    let header : BwavFileHeader :=
      { magic := subBytes data 0 4, bom := bom, version_minor := hdr.getD 0 0,
        version_major := hdr.getD 1 0, crc := wordAt bom (subBytes hdr 2 4),
        is_prefetch := wordAt bom (subBytes hdr 6 2) = 1,
        num_channels := num_channels }
    match bwavChannelInfosParse bom data num_channels 16 with
    | none => none
    | some infos =>
      match infos.getLast? with
      | none => none
      | some lastInfo =>
        match bwavChannelSamplesParse bom data size lastInfo.absolute_start_samples_this infos with
        | none => none
        | some samples =>
          some (.bwav { header := header, channel_infos := infos,
                        channel_samples := samples,
                        decoded_channels := List.replicate num_channels none })
  else
    none

/-- `BwavFileHeader.write` (lines 275-278). -/
def BwavFileHeader.bytes (h : BwavFileHeader) : List Nat :=
  h.magic ++ bomBytes h.bom ++ [h.version_minor % 256, h.version_major % 256] ++
    packU32 h.bom h.crc ++ packU16 h.bom (if h.is_prefetch then 1 else 0) ++
    packU16 h.bom h.num_channels

/-- `BwavChannelInfo.write` (lines 308-313). -/
def BwavChannelInfo.bytes (ci : BwavChannelInfo) (bom : Bom) : List Nat :=
  packU16 bom ci.codec ++ packU16 bom ci.channel_pan ++ packU32 bom ci.sample_rate ++
    packU32 bom ci.num_samples_nonprefetch ++ packU32 bom ci.num_samples_this ++
    ci.dsp_adpcm_coefficients ++
    packU32 bom ci.absolute_start_samples_nonprefetch ++
    packU32 bom ci.absolute_start_samples_this ++
    packU32 bom (if ci.is_looping then 1 else 0) ++
    packU32 bom ci.loop_end_sample ++ packU32 bom ci.loop_start_sample ++
    packU16 bom ci.predictor_scale ++ packS16 bom ci.history_sample_1 ++
    packS16 bom ci.history_sample_2 ++ packU16 bom ci.padding

/-- `Bwav.write` / `RawAsset.write` into an open writer (lines 373-396):
header and channel infos sequentially, then each channel's samples at
`pos + absolute_start_samples_this`. -/
def Asset.writeTo (a : Asset) (w : OutBuf) : OutBuf :=
  match a with
  | .raw r => wWrite w r.data
  | .bwav v =>
    let pos := w.pos
    let w1 := wWrite w (v.header.bytes ++
      (v.channel_infos.map (fun ci => ci.bytes v.header.bom)).flatten)
    (v.channel_infos.zip v.channel_samples).foldl
      (fun acc p => wWrite (wSeek acc (pos + p.1.absolute_start_samples_this)) p.2) w1

/-- The unique-samples scan of `Bwav.get_size` (lines 404-408): keep the
first (index, start-offset) pair for every distinct start offset. -/
def uniqueByOffset (l : List (Nat × Nat)) : List (Nat × Nat) :=
  l.foldl (fun acc p => if acc.any (fun q => q.2 = p.2) then acc else acc ++ [p]) []

/-- `Bwav.get_size` / `RawAsset.get_size` (lines 398-415): header+infos part,
padded, plus the sample blobs deduplicated by start offset, each padded to 64
except the blob of the last unique channel. -/
def Asset.get_size (a : Asset) : Nat :=
  match a with
  | .raw r => r.data.length
  | .bwav v =>
    let header_and_info_part := 16 + 76 * v.channel_infos.length
    let starts := (v.channel_infos.map (·.absolute_start_samples_this)).take v.header.num_channels
    let unique := uniqueByOffset starts.enum
    match unique.getLast? with
    | none => header_and_info_part
    | some lastP =>
      let samples_part := (unique.map (fun p =>
        let len := (v.channel_samples.getD p.1 []).length
        if p.1 ≠ lastP.1 then pad_till len 64 else len)).sum
      if 0 < samples_part then pad_till header_and_info_part 64 + samples_part
      else header_and_info_part

/-! ### Decoding (source `Bwav.decode_channel`, lines 461-567)

The Opus packet decoder itself is the external `pyogg` library; it is
modelled as an uninterpreted per-packet function `dec : List Nat → List Nat`
(packet bytes to PCM bytes) that every theorem quantifies over.  The packet
iteration, limiting and caching logic around it is the repository's own code
and is modelled exactly. -/

/-- The inner nibble loop of the DSP-ADPCM decoder (lines 509-529): two-tap
prediction with per-sample history update, clamped to signed 16-bit.
Python `>> 11` on ints is floor division, hence `Int.fdiv`. -/
def adpcmReadSamples (src : List Nat) (scale c1 c2 : Int) :
    Nat → Nat → Bool → Int → Int → Option (List Int × Nat × Int × Int)
  | 0, idxSrc, _, h1, h2 => some ([], idxSrc, h1, h2)
  | n + 1, idxSrc, even, h1, h2 =>
    match src.get? idxSrc with
    | none => none
    | some byte =>
      let nib := if even then get_high_nibble byte else get_low_nibble byte
      let idx' := if even then idxSrc else idxSrc + 1
      let s0 : Int := if 8 ≤ nib then (nib : Int) - 16 else (nib : Int)
      let sample := Int.fdiv (scale * s0 * 2048 + 1024 + (c1 * h1 + c2 * h2)) 2048
      let final := if 32767 < sample then 32767 else if sample < -32768 then -32768 else sample
      match adpcmReadSamples src scale c1 c2 n idx' (!even) final h1 with
      | none => none
      | some (rest, i, a, b) => some (final :: rest, i, a, b)

/-- The frame loop of the DSP-ADPCM decoder (lines 500-536).  After each
frame, if a positive byte limit was exceeded by the sample count the
accumulated output is cut to `sampleLimit` and the run is flagged reduced. -/
def adpcmFrames (src : List Nat) (coefs : List Int) (byteLimit sampleLimit : Nat) :
    Nat → Nat → Int → Int → Nat → List Int → Option (List Int × Bool)
  | 0, _, _, _, _, acc => some (acc, false)
  | f + 1, idxSrc, h1, h2, remaining, acc =>
    match src.get? idxSrc with
    | none => none
    | some frameHeader =>
      let scale : Int := 2 ^ get_low_nibble frameHeader
      let predictor := get_high_nibble frameHeader
      match coefs.get? (predictor * 2), coefs.get? (predictor * 2 + 1) with
      | some c1, some c2 =>
        let toRead := min 14 remaining
        match adpcmReadSamples src scale c1 c2 toRead (idxSrc + 1) true h1 h2 with
        | none => none
        | some (samples, idxSrc', h1', h2') =>
          let acc' := acc ++ samples
          if 0 < byteLimit ∧ byteLimit < acc'.length then
            some (acc'.take sampleLimit, true)
          else
            adpcmFrames src coefs byteLimit sampleLimit f idxSrc' h1' h2' (remaining - toRead) acc'
      | _, _ => none

/-- The Opus packet loop (lines 543-559): big-endian packet length, four
reserved bytes, payload handed to the external decoder; output concatenated
and possibly truncated to the byte limit. -/
def opusPackets (dec : List Nat → List Nat) (src : List Nat) (byteLimit : Nat) :
    Nat → Nat → List Nat → Option (List Nat × Bool)
  | 0, _, _ => none
  | f + 1, cur, acc =>
    if src.length ≤ cur then some (acc, false)
    else
      let szB := subBytes src cur 4
      if szB.length ≠ 4 then none else
      let packet_size := wordAt .be szB
      let cur1 := cur + 8
      let packet := subBytes src cur1 packet_size
      let acc' := acc ++ dec packet
      let cur2 := cur1 + packet_size
      if 0 < byteLimit ∧ byteLimit < acc'.length then
        some (acc'.take byteLimit, true)
      else
        opusPackets dec src byteLimit f cur2 acc'

/-- Codec dispatch of `decode_channel` (lines 471-562), returning the decoded
samples and the `reduced` flag.  A codec outside 0-2 runs none of the
branches and yields the empty list, unreduced. -/
def decodeChannelCore (dec : List Nat → List Nat) (bom : Bom)
    (infos : List BwavChannelInfo) (samples : List (List Nat))
    (idx sample_limit : Nat) : Option (List Int × Bool) :=
  match samples.get? idx, infos.get? idx with
  | some src, some ci =>
    let byteLimit := sample_limit * 2
    if ci.codec = 0 then
      if 0 < byteLimit ∧ byteLimit < src.length then
        if (src.take byteLimit).length % 2 = 0 then
          some (unpackShorts bom (src.take byteLimit), true)
        else none
      else
        if src.length % 2 = 0 then some (unpackShorts bom src, false) else none
    else if ci.codec = 1 then
      if ci.dsp_adpcm_coefficients.length ≠ 32 then none else
      let coefs := unpackShorts bom ci.dsp_adpcm_coefficients
      let num := ci.num_samples_this
      adpcmFrames src coefs byteLimit sample_limit ((num + 13) / 14) 0
        ci.history_sample_1 ci.history_sample_2 num []
    else if ci.codec = 2 then
      match opusPackets dec src byteLimit (src.length + 1) 40 [] with
      | none => none
      | some (total, reduced) =>
        if total.length % 2 = 0 then some (unpackShorts bom total, reduced) else none
    else
      some ([], false)
  | _, _ => none

/-- The cache-miss path of `decode_channel`: decode, then store in the cache
only when the run was not reduced (lines 564-565). -/
def bwavDecodeFresh (dec : List Nat → List Nat) (w : Bwav) (idx sample_limit : Nat) :
    Option (List Int × Bwav) :=
  match decodeChannelCore dec w.header.bom w.channel_infos w.channel_samples idx sample_limit with
  | none => none
  | some (dst, reduced) =>
    if reduced then some (dst, w)
    else some (dst, { w with decoded_channels := w.decoded_channels.set idx (some dst) })

/-- `Bwav.decode_channel` (lines 461-567).  A truthy (non-empty) cache entry
is returned directly, truncated when a positive limit was given. -/
def Bwav.decode_channel (dec : List Nat → List Nat) (w : Bwav) (idx sample_limit : Nat) :
    Option (List Int × Bwav) :=
  if w.header.num_channels ≤ idx then none else
  match w.decoded_channels.get? idx with
  | none => none
  | some (some cached) =>
    if cached ≠ [] then
      some (if 0 < sample_limit then cached.take sample_limit else cached, w)
    else
      bwavDecodeFresh dec w idx sample_limit
  | some none => bwavDecodeFresh dec w idx sample_limit

/-- The channel loop of `Bwav.decode` (lines 573-575). -/
def bwavDecodeLoop (dec : List Nat → List Nat) (limit : Nat) :
    Nat → Nat → Bwav → Option (List (List Int) × Bwav)
  | 0, _, w => some ([], w)
  | n + 1, idx, w =>
    match Bwav.decode_channel dec w idx limit with
    | none => none
    | some (dst, w') =>
      match bwavDecodeLoop dec limit n (idx + 1) w' with
      | none => none
      | some (rest, w'') => some (dst :: rest, w'')

/-- `Bwav.decode` (lines 569-577); raw assets raise. -/
def Asset.decode (dec : List Nat → List Nat) (limit : Nat) : Asset → Option (List (List Int) × Asset)
  | .raw _ => none
  | .bwav w =>
    match bwavDecodeLoop dec limit w.header.num_channels 0 w with
    | none => none
    | some (res, w') => some (res, .bwav w')

/-- `Bwav.get_peak_volume` (lines 417-426): raw assets report 1.0; otherwise
`max |sample| / 32768` over the full decode of every channel.  The divisor is
the power of two 2^15 and `max ≤ 32768`, so the Python float is exactly
`n / 32768`; the model carries the integer numerator `n` (32768 for the raw
case's 1.0).  Python `max` of an empty sequence raises. -/
def Asset.get_peak_volume (dec : List Nat → List Nat) : Asset → Option (Nat × Asset)
  | .raw r => some (32768, .raw r)
  | .bwav w =>
    match Asset.decode dec 0 (.bwav w) with
    | none => none
    | some (decoded, a') =>
      match (decoded.flatten.map Int.natAbs).max? with
      | none => none
      | some mx => some (mx, a')

/-! ### `convert_to_prefetch` (source lines 428-459) -/

/-- The candidate bytes compared against the codec budget (lines 442-446):
the raw channel bytes, except Opus channels which use the partial decode
packed back to PCM16 bytes. -/
def convCandidate (dec : List Nat → List Nat) (w : Bwav) (idx : Nat)
    (ci : BwavChannelInfo) (samplesRaw : List Nat) (req_b : Nat) :
    Option (List Nat × Bwav) :=
  if ci.codec = 2 then
    match Bwav.decode_channel dec w idx (req_b / 2) with
    | none => none
    | some (ds, w1) =>
      (packShortsBytes w.header.bom ds).map (fun packed => (packed, w1))
  else some (samplesRaw, w)

/-- The per-codec sample budgets of `convert_to_prefetch` (line 434). -/
def samplesBudget (codec : Nat) : Option Nat :=
  [0x1000, 0x3800, 0x9000].get? codec

/-- The per-codec byte budgets of `convert_to_prefetch` (line 435). -/
def bytesBudget (codec : Nat) : Option Nat :=
  [0x2000, 0x2000, 0x12200].get? codec

/-- The channel loop of `convert_to_prefetch` (lines 438-454).  A channel
whose sample count and byte count are both below the codec budget is skipped;
otherwise its samples are cut to the byte budget, its sample count set to the
budget, and its start offset rebased from channel 0's start. -/
def convGo (dec : List Nat → List Nat) : Nat → Nat → Bwav → Bool → Option (Bool × Bwav)
  | 0, _, w, conv => some (conv, w)
  | n + 1, idx, w, conv =>
    match w.channel_infos.get? idx, w.channel_samples.get? idx with
    | some ci, some samplesRaw =>
      match samplesBudget ci.codec, bytesBudget ci.codec with
      | some req_s, some req_b =>
        match convCandidate dec w idx ci samplesRaw req_b with
        | none => none
        | some (samples, w1) =>
          if ci.num_samples_this < req_s ∧ samples.length < req_b then
            convGo dec n (idx + 1) w1 conv
          else
            match w1.channel_infos.get? 0 with
            | none => none
            | some c0 =>
              let ci' := { ci with
                num_samples_this := req_s,
                absolute_start_samples_this := c0.absolute_start_samples_this + idx * req_b }
              let w2 := { w1 with
                channel_infos := w1.channel_infos.set idx ci',
                channel_samples := w1.channel_samples.set idx (samples.take req_b) }
              convGo dec n (idx + 1) w2 true
      | _, _ => none
    | _, _ => none

/-- `Bwav.convert_to_prefetch` (lines 428-459): false for raw assets, true
(no-op) when already prefetch, else the channel loop followed by setting the
prefetch flag if anything converted. -/
def Asset.convert_to_prefetch (dec : List Nat → List Nat) : Asset → Option (Bool × Asset)
  | .raw r => some (false, .raw r)
  | .bwav w =>
    if w.header.is_prefetch then some (true, .bwav w)
    else
      match convGo dec w.channel_infos.length 0 w false with
      | none => none
      | some (conv, w') =>
        let w'' := if conv then { w' with header := { w'.header with is_prefetch := true } } else w'
        some (conv, .bwav w'')

/-! ### BARS containers (source lines 717-1056) -/

structure Bars where
  magic : List Nat
  size : Nat
  bom : Bom
  version_minor : Nat
  version_major : Nat
  meta_count : Nat
  crc_hashes : List Nat
  meta_offsets : List Int
  asset_offsets : List Int
  unknown : List Nat
  metas : List Amta
  assets : List Asset
deriving DecidableEq

/-- The offset-pair table loop (lines 760-767): stops early on a truncated
chunk. -/
def barsPairs (bom : Bom) (buf : List Nat) : Nat → Nat → List (Int × Int)
  | 0, _ => []
  | n + 1, pos =>
    let chunk := subBytes buf pos 8
    if chunk.length < 8 then []
    else
      match splitU32s bom chunk with
      | [m, a] => ((m : Int), (a : Int)) :: barsPairs bom buf n (pos + 8)
      | _ => []

/-- The per-asset read size (lines 788-790): distance to the smallest strictly
greater offset in the table, or to the declared container size when no greater
offset exists; clamped below at zero. -/
def assetReadSize (all : List Int) (size : Nat) (off : Int) : Int :=
  let higher := all.filter (fun o => off < o)
  let base := match higher.min? with
    | some m => m
    | none => (size : Int)
  max 0 (base - off)

/-- `Bars._load_asset_from_bytes` (lines 892-895). -/
def loadAssetFromBytes (data : List Nat) : Option Asset :=
  if subBytes data 0 4 = [66, 87, 65, 86] then bwavParse data data.length
  else some (.raw ⟨data⟩)

/-- The asset-reading loop with its offset-keyed cache (lines 782-796). -/
def readAssets (buf : List Nat) (size : Nat) (all : List Int) :
    List Int → List (Int × Asset) → Option (List Asset)
  | [], _ => some []
  | off :: rest, cache =>
    match cache.find? (fun p => p.1 = off) with
    | some p => (readAssets buf size all rest cache).map (p.2 :: ·)
    | none =>
      if off < 0 then none else
      let rs := assetReadSize all size off
      let blob := subBytes buf off.toNat rs.toNat
      match loadAssetFromBytes blob with
      | none => none
      | some asset => (readAssets buf size all rest ((off, asset) :: cache)).map (asset :: ·)

/-- `Bars.__init__` from an in-memory buffer (lines 718-799). -/
def barsParse (buf : List Nat) : Option Bars :=
  if subBytes buf 0 4 ≠ [66, 65, 82, 83] then none else
  let sizeB := subBytes buf 4 4
  let bomB := subBytes buf 8 2
  if bomB = [0xFE, 0xFF] ∨ bomB = [0xFF, 0xFE] then
    let bom : Bom := if bomB = [0xFE, 0xFF] then .be else .le
    let verB := subBytes buf 10 2
    let cntB := subBytes buf 12 4
    if sizeB.length ≠ 4 ∨ verB.length ≠ 2 ∨ cntB.length ≠ 4 then none else
    let size := wordAt bom sizeB
    let cnt := wordAt bom cntB
    let hashesB := subBytes buf 16 (4 * cnt)
    if hashesB.length ≠ 4 * cnt then none else
    let hashes := splitU32s bom hashesB
    let pairs := barsPairs bom buf cnt (16 + 4 * cnt)
    let meta_count := min cnt pairs.length
    let crc_hashes := hashes.take meta_count
    let meta_offsets := pairs.map (·.1)
    let asset_offsets := pairs.map (·.2)
    let posAfterPairs := 16 + 4 * cnt + 8 * pairs.length
    let unknown := match meta_offsets.head? with
      | some m0 => subBytes buf posAfterPairs (max 0 (m0 - posAfterPairs)).toNat
      | none => []
    match meta_offsets.mapM (fun mo => if mo < 0 then none else amtaParse buf mo.toNat) with
    | none => none
    | some metas =>
      match readAssets buf size asset_offsets asset_offsets [] with
      | none => none
      | some assets =>
        some { magic := subBytes buf 0 4, size := size, bom := bom,
               version_minor := verB.getD 0 0, version_major := verB.getD 1 0,
               meta_count := meta_count, crc_hashes := crc_hashes,
               meta_offsets := meta_offsets, asset_offsets := asset_offsets,
               unknown := unknown, metas := metas, assets := assets }
  else
    none

/-- Lines 811-817 of `Bars.write`: clamp the entry count to the minimum of
the five parallel collections' lengths AND the current count, then truncate
all five to it. -/
def Bars.sync_counts (b : Bars) : Bars :=
  let cnt := min (min (min (min (min b.crc_hashes.length b.meta_offsets.length)
    b.asset_offsets.length) b.metas.length) b.assets.length) b.meta_count
  { b with
    meta_count := cnt,
    crc_hashes := b.crc_hashes.take cnt,
    meta_offsets := b.meta_offsets.take cnt,
    asset_offsets := b.asset_offsets.take cnt,
    metas := b.metas.take cnt,
    assets := b.assets.take cnt }

def Bars.get_preheader_size (b : Bars) (custom_count : Nat) : Nat :=
  4 + 4 + 2 + 6 + 4 * custom_count + 8 * custom_count + b.unknown.length

def Bars.get_header_size (b : Bars) (custom_count : Nat) : Nat :=
  pad_till (b.get_preheader_size custom_count + (b.metas.map Amta.get_size).sum) 64

/-- The meta-offset loop of `calculate_offsets` (lines 876-881): each offset
after the first advances the previous offset by the CURRENT record's size
(`meta` is the record at the index being appended). -/
def buildMetaOffsetsGo (prev : Int) : List Amta → List Int
  | [] => []
  | m :: rest =>
    let nxt := prev + (Amta.get_size m : Int)
    nxt :: buildMetaOffsetsGo nxt rest

def buildMetaOffsets (pre : Int) : List Amta → List Int
  | [] => []
  | _ :: rest => pre :: buildMetaOffsetsGo pre rest

/-- The asset-offset loop of `calculate_offsets` (lines 884-890): a running
sum over ALL entries, each next offset advancing by the 64-byte-padded size of
the previous entry's asset.  There is no deduplication here. -/
def buildAssetOffsets (cur : Int) : List Asset → List Int
  | [] => []
  | a :: rest => cur :: buildAssetOffsets (cur + (pad_till (Asset.get_size a) 64 : Int)) rest

/-- `Bars.calculate_offsets` (lines 873-890). -/
def Bars.calculate_offsets (b : Bars) : Bars :=
  { b with
    meta_offsets := buildMetaOffsets (b.get_preheader_size b.meta_count : Int) b.metas,
    asset_offsets := buildAssetOffsets (b.get_header_size b.meta_count : Int) b.assets }

/-- The unique-assets scan of `Bars.get_size` (lines 851-854), keyed by the
asset OFFSET values. -/
def uniqueByAssetOffset (l : List (Nat × Int × Asset)) : List (Nat × Int × Asset) :=
  l.foldl (fun acc p => if acc.any (fun q => q.2.1 = p.2.1) then acc else acc ++ [p]) []

/-- `Bars.get_size` (lines 847-865): header/crc/metas part plus the sample
data of the offset-deduplicated assets, each padded to 64 except the last
unique one. -/
def Bars.get_size (b : Bars) : Nat :=
  let header_crc_metas_part := b.get_header_size b.meta_count
  let entries := ((b.asset_offsets.zip b.assets).take b.meta_count).enum.map
    (fun p => (p.1, p.2.1, p.2.2))
  let unique := uniqueByAssetOffset entries
  let assets_part :=
    if b.meta_count > 0 then
      match unique.getLast? with
      | none => 0
      | some lastP =>
        (unique.map (fun p =>
          if p.1 ≠ lastP.1 then pad_till (Asset.get_size p.2.2) 64
          else Asset.get_size p.2.2)).sum
    else 0
  header_crc_metas_part + assets_part

/-- `Bars.write` (lines 801-845): sync the parallel lists, recompute offsets
and total size, then emit header, hash table, offset pairs (masked to 32
bits), trailer blob, and finally every metadata record and asset at its
offset through seeks. -/
def Bars.write (b0 : Bars) : List Nat :=
  let b1 := b0.sync_counts
  let b := b1.calculate_offsets
  let size := b.get_size
  let header := b.magic ++ packU32 b.bom size ++ bomBytes b.bom ++
    [b.version_minor % 256, b.version_major % 256] ++ packU32 b.bom b.meta_count ++
    (b.crc_hashes.map (packU32 b.bom)).flatten ++
    (((b.meta_offsets.zip b.asset_offsets).take b.meta_count).map (fun p =>
      packU32 b.bom (p.1 % ((2 : Int) ^ 32)).toNat ++
      packU32 b.bom (p.2 % ((2 : Int) ^ 32)).toNat)).flatten ++
    b.unknown
  let w0 := wWrite ⟨[], 0⟩ header
  let w1 := (b.meta_offsets.zip b.metas).foldl (fun acc p =>
    wWrite (wSeek acc p.1.toNat) (Amta.write p.2 p.1.toNat)) w0
  let w2 := (b.asset_offsets.zip b.assets).foldl (fun acc p =>
    Asset.writeTo p.2 (wSeek acc p.1.toNat)) w1
  w2.data

/-! ### Replacement and insertion (source lines 901-1056) -/

/-- The prefetch compatibility step of `replace_bwav` (lines 931-947), for a
parsed old and parsed new asset.  Result: `none` = exception, `some none` =
"return False", `some (some a)` = continue with `a` (the new asset, converted
in place when the old one was prefetch). -/
def replacePrefetchStep (dec : List Nat → List Nat) (wOld : Bwav) (newAsset : Asset)
    (resize : Bool) : Option (Option Asset) :=
  if wOld.header.is_prefetch then
    match Asset.convert_to_prefetch dec newAsset with
    | none => none
    | some (conv, a') => if conv then some (some a') else some none
  else
    match newAsset with
    | .bwav wNew =>
      if wNew.header.is_prefetch then some none
      else if resize then some (some newAsset)
      else some none
    | .raw _ => none

/-- The parsed-old/parsed-new guard block of `replace_bwav` (lines 918-947):
without `resize_if_needed`, a different channel count or a different
first-channel codec is rejected; then the prefetch step runs.  When either
side is a raw asset the whole block is skipped. -/
def replaceCheck (dec : List Nat → List Nat) (resize : Bool) (bwav_old bwav_new : Asset) :
    Option (Option Asset) :=
  match bwav_old, bwav_new with
  | .bwav wOld, .bwav wNew =>
    if resize = false then
      if wNew.header.num_channels ≠ wOld.header.num_channels then some none
      else
        match wNew.channel_infos.get? 0, wOld.channel_infos.get? 0 with
        | some cn, some co =>
          if cn.codec ≠ co.codec then some none
          else replacePrefetchStep dec wOld (.bwav wNew) resize
        | _, _ => none
    else replacePrefetchStep dec wOld (.bwav wNew) resize
  | _, _ => some (some bwav_new)

/-- The shared-offset shift of `replace_bwav` (lines 950-963).  `none` means
the Python `return False` (which here happens before any mutation). -/
def replaceSharedShift (b : Bars) (idx : Nat) (old_offset : Int) (oldSize : Nat)
    (resize : Bool) : Option Bars :=
  let same := (b.asset_offsets.enum.filter (fun p => p.2 = old_offset ∧ p.1 ≠ idx)).map (·.1)
  match same with
  | [] => some b
  | s0 :: _ =>
    if resize = false then none
    else
      let idx_from := if s0 < idx then idx else s0
      let shifted := b.asset_offsets.enum.map
        (fun p => if idx_from ≤ p.1 ∧ p.1 < b.meta_count then p.2 + (oldSize : Int) else p.2)
      some { b with asset_offsets := shifted }

/-- The size-difference shift of `replace_bwav` (lines 966-975). -/
def replaceSizeShift (b : Bars) (idx : Nat) (sizeDiff : Int) (resize : Bool) : Option Bars :=
  if sizeDiff ≠ 0 then
    if resize = false then none
    else
      let shifted := b.asset_offsets.enum.map
        (fun p => if idx + 1 ≤ p.1 ∧ p.1 < b.meta_count then p.2 + sizeDiff else p.2)
      some { b with asset_offsets := shifted }
  else some b

/-- `Bars.replace_bwav` (lines 901-982).  The replaced entry is located by
METADATA NAME (first match); the new asset comes from the file at
`bwav_path`, modelled as its `(stem, bytes)` pair. -/
def Bars.replace_bwav (dec : List Nat → List Nat) (b : Bars) (name data : List Nat)
    (resize : Bool) : Option (Bool × Bars) :=
  match b.metas.findIdx? (fun m => m.name = name) with
  | none => some (false, b)
  | some idx =>
    match loadAssetFromBytes data with
    | none => none
    | some bwav_new0 =>
      match b.assets.get? idx with
      | none => none
      | some bwav_old =>
        match replaceCheck dec resize bwav_old bwav_new0 with
        | none => none
        | some none => some (false, b)
        | some (some bwav_new) =>
          match b.asset_offsets.get? idx with
          | none => none
          | some old_offset =>
            match replaceSharedShift b idx old_offset (Asset.get_size bwav_old) resize with
            | none => some (false, b)
            | some b2 =>
              let size_diff : Int := (pad_till (Asset.get_size bwav_new) 64 : Int) -
                (pad_till (Asset.get_size bwav_old) 64 : Int)
              match replaceSizeShift b2 idx size_diff resize with
              | none => some (false, b2)
              | some b3 =>
                let b4 := { b3 with assets := b3.assets.set idx bwav_new }
                some (true, { b4 with size := b4.get_size })

/-- Fuel-based binary logarithm (floor), kernel-computable. -/
def natLog2Go : Nat → Nat → Nat
  | 0, _ => 0
  | f + 1, n => if 2 ≤ n then natLog2Go f (n / 2) + 1 else 0

def natLog2 (n : Nat) : Nat := natLog2Go n n

/-- IEEE-754 single-precision bit pattern of the peak volume `m / 2^15`;
exact for `0 ≤ m ≤ 2^15`, which covers every value `get_peak_volume` can
produce.  Only the byte image of freshly created metadata depends on it. -/
def f32Peak (m : Nat) : Nat :=
  if m = 0 then 0
  else
    let k := natLog2 m
    (112 + k) * 2 ^ 23 + (m - 2 ^ k) * 2 ^ (23 - k)

/-- `Bars.create_new_amta` (lines 984-1026).  The float constants 0.005 and
-43.6 are stored as their single-precision bit patterns; the unknown section
is serialized with the CONTAINER's byte order (line 1020). -/
def Bars.create_new_amta (b : Bars) (name : List Nat) (peak : Nat) : Amta :=
  let us : AmtaUnknownSection :=
    { unk_1 := 79, unk_2 := f32Peak peak, unk_3 := 0x3BA3D70A,
      unk_4 := 0xC22E6666, unk_5 := 0xC22E6666, unk_6 := 0 }
  let a0 : Amta :=
    { magic := [65, 77, 84, 65], bom := .le, version_minor := 0, version_major := 5,
      size := 0, empty_offset := 0, UNKNOWN_offset := 52, UNKNOWN2_offset := 0,
      MINF_offset := 0, STRINGS_offset := 0, empty_offset_2 := 0,
      DATA_size := 40, name_crc := calculate_crc32_hash name, flags := 2,
      tracks_per_channel := 1, channel_count := 1,
      rest_of_data := [0, 4] ++ us.to_bytes b.bom,
      UNKNOWN_section := us, UNKNOWN2_section := none,
      rest_of_file := name ++ [0], name := name, raw_bytes := none }
  { a0 with size := Amta.get_size a0 }

/-- Python `list.insert(pos, x)`: insert before `pos`, appending at the end
when `pos` exceeds the length. -/
def pyInsert (l : List α) (pos : Nat) (x : α) : List α :=
  l.take pos ++ x :: l.drop pos

/-- `bisect.bisect_left`, fuel-based binary search over `lo ≤ hi`. -/
def bisectGo (a : List Nat) (x : Nat) : Nat → Nat → Nat → Nat
  | 0, lo, _ => lo
  | f + 1, lo, hi =>
    if lo < hi then
      let mid := (lo + hi) / 2
      if a.getD mid 0 < x then bisectGo a x f (mid + 1) hi
      else bisectGo a x f lo mid
    else lo

def bisect_left (a : List Nat) (x : Nat) : Nat :=
  bisectGo a x (a.length + 1) 0 a.length

/-- `Bars.add_or_replace_bwav` (lines 1028-1056).  When the name's hash is
already present it calls `replace_bwav` and returns False REGARDLESS of the
replacement's outcome; otherwise it inserts a fresh (amta, bwav, hash) triple
at the `bisect_left` position and returns True. -/
def Bars.add_or_replace_bwav (dec : List Nat → List Nat) (b : Bars)
    (name data : List Nat) (resize : Bool) : Option (Bool × Bars) :=
  let name_hash := calculate_crc32_hash name
  if name_hash ∈ b.crc_hashes then
    (Bars.replace_bwav dec b name data resize).map (fun r => (false, r.2))
  else
    match bwavParse data data.length with
    | none => none
    | some new_bwav0 =>
      match Asset.get_peak_volume dec new_bwav0 with
      | none => none
      | some (peak, new_bwav) =>
        let new_amta := b.create_new_amta name peak
        let ins := bisect_left b.crc_hashes name_hash
        let b1 := { b with
          metas := pyInsert b.metas ins new_amta,
          assets := pyInsert b.assets ins new_bwav,
          crc_hashes := pyInsert b.crc_hashes ins name_hash,
          meta_count := b.meta_count + 1 }
        let b2 := b1.calculate_offsets
        some (true, { b2 with size := b2.get_size })

/-- A concrete stand-in for the external Opus decoder in closed computations. -/
def zeroDec : List Nat → List Nat := fun _ => []

/-! ### Concrete inputs used by counterexamples and witnesses -/

/-- The byte string "testname". -/
def sampleName : List Nat := [116, 101, 115, 116, 110, 97, 109, 101]

/-- A well-formed 100-byte AMTA record: header, DATA section with a 24-byte
payload, then the name "testname" padded with NULs. -/
def amtaSample : List Nat :=
  [65, 77, 84, 65] ++ [255, 254] ++ [0, 5] ++ packU32 .le 100 ++
  packU32 .le 0 ++ packU32 .le 36 ++ packU32 .le 0 ++ packU32 .le 0 ++
  packU32 .le 0 ++ packU32 .le 0 ++
  [68, 65, 84, 65] ++ packU32 .le 24 ++ List.replicate 24 0 ++
  sampleName ++ List.replicate 24 0

/-- An AMTA record whose declared size field is 0 (the captured verbatim span
is therefore empty); the bytes after the 36-byte header keep the parse happy. -/
def amtaZeroSize : List Nat :=
  [65, 77, 84, 65] ++ [255, 254] ++ [0, 5] ++ packU32 .le 0 ++
  packU32 .le 0 ++ packU32 .le 36 ++ packU32 .le 0 ++ packU32 .le 0 ++
  packU32 .le 0 ++ packU32 .le 0 ++
  [68, 65, 84, 65] ++ packU32 .le 0 ++ List.replicate 16 0

/-- 37 PCM16 little-endian samples with values 1..37. -/
def c1SampleBytes : List Nat := ((List.range 37).map (fun i => [i + 1, 0])).flatten

/-- A single-channel PCM16 BWAV whose channel data starts at offset 200 —
past the normalized position `pad_till(92) = 128` — with 108 bytes of
padding between the channel info block and the sample data.  All fields are
self-consistent (37 samples, 74 bytes). -/
def c1BwavBytes : List Nat :=
  [66, 87, 65, 86] ++ [255, 254] ++ [0, 1] ++ packU32 .le 0xABCD ++
  packU16 .le 0 ++ packU16 .le 1 ++
  packU16 .le 0 ++ packU16 .le 2 ++ packU32 .le 48000 ++ packU32 .le 37 ++ packU32 .le 37 ++
  List.replicate 32 0 ++
  packU32 .le 200 ++ packU32 .le 200 ++ packU32 .le 0 ++ packU32 .le 0 ++ packU32 .le 0 ++
  packU16 .le 0 ++ packS16 .le 0 ++ packS16 .le 0 ++ packU16 .le 0 ++
  List.replicate 108 0 ++
  c1SampleBytes

/-- A parseable single-entry BARS container holding `amtaSample` and
`c1BwavBytes`; declared total size equals the actual length, 402. -/
def c1buf : List Nat :=
  [66, 65, 82, 83] ++ packU32 .le 402 ++ [255, 254] ++ [2, 1] ++ packU32 .le 1 ++
  packU32 .le (calculate_crc32_hash sampleName) ++
  packU32 .le 28 ++ packU32 .le 128 ++
  amtaSample ++ c1BwavBytes

/-- Decoded channels of asset 0 after parsing `c1buf`. -/
def c1pre : Option (List (List Int)) :=
  (barsParse c1buf).bind fun b =>
    (b.assets.get? 0).bind fun a => (Asset.decode zeroDec 0 a).map (·.1)

/-- Decoded channels of asset 0 after parse, `write`, and re-parse. -/
def c1post : Option (List (List Int)) :=
  (barsParse c1buf).bind fun b =>
    (barsParse (Bars.write b)).bind fun b2 =>
      (b2.assets.get? 0).bind fun a => (Asset.decode zeroDec 0 a).map (·.1)

def rawA : Asset := .raw ⟨[1, 2, 3, 4, 5]⟩

/-- A metadata record carrying a 10-byte verbatim span. -/
def amtaTiny : Amta :=
  { amtaDefault with raw_bytes := some (List.replicate 10 1), size := 10 }

/-- Two entries aliasing one asset (equal asset values, equal offsets). -/
def c2bars : Bars :=
  { magic := [66, 65, 82, 83], size := 0, bom := .le, version_minor := 2,
    version_major := 1, meta_count := 2, crc_hashes := [5, 10],
    meta_offsets := [40, 50], asset_offsets := [100, 100], unknown := [],
    metas := [amtaTiny, amtaTiny], assets := [rawA, rawA] }

def amtaNamedA : Amta :=
  { amtaDefault with name := [97], raw_bytes := some (List.replicate 20 2), size := 20 }

/-- One entry whose metadata is named "a" and whose hash entry is crc32("a"). -/
def c3bars : Bars :=
  { magic := [66, 65, 82, 83], size := 0, bom := .le, version_minor := 2,
    version_major := 1, meta_count := 1, crc_hashes := [calculate_crc32_hash [97]],
    meta_offsets := [28], asset_offsets := [64], unknown := [],
    metas := [amtaNamedA], assets := [.raw ⟨[1, 2, 3]⟩] }

/-- Hash of "a" present but no metadata record named "a": `replace_bwav`
reports failure here. -/
def c3barsB : Bars :=
  { c3bars with metas := [{ amtaNamedA with name := [98] }] }

def c4info : BwavChannelInfo :=
  { codec := 0, channel_pan := 0, sample_rate := 48000,
    num_samples_nonprefetch := 0x1000, num_samples_this := 0x1000,
    dsp_adpcm_coefficients := List.replicate 32 0,
    absolute_start_samples_nonprefetch := 96, absolute_start_samples_this := 96,
    is_looping := false, loop_end_sample := 0, loop_start_sample := 0,
    predictor_scale := 0, history_sample_1 := 0, history_sample_2 := 0,
    padding := 0 }

/-- A PCM16 channel whose SAMPLE COUNT already meets the 0x1000 budget while
its byte count (10) is far below the 0x2000 byte budget. -/
def c4header : BwavFileHeader :=
  { magic := [66, 87, 65, 86], bom := .le, version_minor := 0,
    version_major := 1, crc := 0, is_prefetch := false, num_channels := 1 }

def c4bwav : Bwav :=
  { header := c4header,
    channel_infos := [c4info],
    channel_samples := [List.replicate 10 3],
    decoded_channels := [none] }

def Asset.samplesLenAt (a : Asset) (i : Nat) : Nat :=
  match a with
  | .bwav w => (w.channel_samples.getD i []).length
  | .raw _ => 0

def Asset.prefetchFlag : Asset → Bool
  | .bwav w => w.header.is_prefetch
  | .raw _ => false

def assetRawLen : Asset → Nat
  | .raw r => r.data.length
  | .bwav _ => 0

/-- Single-entry container whose declared total size (100) is smaller than
the buffer length (120): the last asset's read length follows the declared
size, not the end of the file. -/
def c5buf : List Nat :=
  [66, 65, 82, 83] ++ packU32 .le 100 ++ [255, 254] ++ [2, 1] ++ packU32 .le 1 ++
  packU32 .le 0x11111111 ++
  packU32 .le 28 ++ packU32 .le 90 ++
  amtaZeroSize ++ [0, 0] ++ List.replicate 30 7

/-- A two-sample PCM16 channel used for the partial-decode cache witness. -/
def c9bwav : Bwav :=
  { header := c4header,
    channel_infos := [{ c4info with num_samples_this := 2, num_samples_nonprefetch := 2 }],
    channel_samples := [[1, 0, 2, 0]],
    decoded_channels := [none] }

/-- Five parallel collections of length 1 but `meta_count` already 0. -/
def c10bars : Bars :=
  { magic := [66, 65, 82, 83], size := 0, bom := .le, version_minor := 2,
    version_major := 1, meta_count := 0, crc_hashes := [1], meta_offsets := [2],
    asset_offsets := [3], unknown := [], metas := [amtaTiny], assets := [rawA] }

/-- Sorted two-entry container for the sorted-insert witness. -/
def c7bars : Bars :=
  { magic := [66, 65, 82, 83], size := 0, bom := .le, version_minor := 2,
    version_major := 1, meta_count := 2, crc_hashes := [10, 20],
    meta_offsets := [40, 50], asset_offsets := [100, 164], unknown := [],
    metas := [amtaTiny, amtaTiny], assets := [rawA, rawA] }

/-- Parsed form of `amtaSample`. -/
def amtaSampleParsed : Amta := (amtaParse amtaSample 0).getD amtaDefault

/-- Result container of the C7 witness insertion. -/
def c7result : Bars :=
  ((Bars.add_or_replace_bwav zeroDec c7bars [97] [9] false).getD (false, c7bars)).2

/-- The asset produced by converting `c4bwav` to prefetch: the single PCM16
channel meets the sample budget, so the conversion fires; the ten sample
bytes survive `take 0x2000` unchanged and the prefetch flag is set. -/
def c4converted : Bwav :=
  { header := { c4header with is_prefetch := true },
    channel_infos := [{ c4info with
      num_samples_this := 0x1000,
      absolute_start_samples_this := 96 }],
    channel_samples := [List.replicate 10 3],
    decoded_channels := [none] }

/-! ## Theorems -/

/-! ### Shared helper lemmas -/

theorem pad_count_lt (pos multiplier : Nat) (h : 0 < multiplier) :
    pad_count pos multiplier < multiplier := by
  unfold pad_count
  by_cases hr : pos % multiplier = 0
  · simp [hr]
    exact h
  · have h1 : pos % multiplier < multiplier := Nat.mod_lt pos h
    simp only [hr, if_neg, ite_false]
    omega

theorem pad_till_mod (pos multiplier : Nat) (h : 0 < multiplier) :
    pad_till pos multiplier % multiplier = 0 := by
  unfold pad_till pad_count
  by_cases hr : pos % multiplier = 0
  · simp [hr]
  · have h1 : pos % multiplier < multiplier := Nat.mod_lt pos h
    have hd := Nat.div_add_mod pos multiplier
    simp only [hr, if_neg, ite_false]
    have heq : pos + (multiplier - pos % multiplier) =
        multiplier * (pos / multiplier) + multiplier := by omega
    rw [heq]
    have heq2 : multiplier * (pos / multiplier) + multiplier =
        multiplier * (pos / multiplier + 1) := by ring
    rw [heq2, Nat.mul_mod_right]

/-- C8: `pad_till`/`pad_count` are pure total functions; for every `pos` and
positive alignment, the result is at least `pos`, is a multiple of the
alignment, overshoots by less than the alignment, and `pad_count` is zero on
already-aligned positions. -/
theorem c8_pad_till_spec (pos multiplier : Nat) (h : 0 < multiplier) :
    pos ≤ pad_till pos multiplier ∧
    pad_till pos multiplier % multiplier = 0 ∧
    pad_till pos multiplier - pos < multiplier ∧
    (pos % multiplier = 0 → pad_count pos multiplier = 0) := by
  refine ⟨Nat.le_add_right _ _, pad_till_mod pos multiplier h, ?_, ?_⟩
  · have := pad_count_lt pos multiplier h
    unfold pad_till
    omega
  · intro hz
    unfold pad_count
    simp [hz]

/-- Witness for C8 at `pos = 3`, `multiplier = 64`. -/
theorem c8_pad_till_spec_witness :
    3 ≤ pad_till 3 64 ∧ pad_till 3 64 % 64 = 0 ∧ pad_till 3 64 - 3 < 64 ∧
    (3 % 64 = 0 → pad_count 3 64 = 0) :=
  c8_pad_till_spec 3 64 (by decide)

/-- C10 (amended): the serialization prologue clamps the entry count to the
minimum of the five parallel collections' lengths AND the pre-existing
`meta_count`, and truncates all five collections to that count, so the
written file has equal-length parallel arrays. -/
theorem c10_sync_counts_spec (b : Bars) :
    (b.sync_counts).meta_count =
      min (min (min (min (min b.crc_hashes.length b.meta_offsets.length)
        b.asset_offsets.length) b.metas.length) b.assets.length) b.meta_count ∧
    (b.sync_counts).crc_hashes.length = (b.sync_counts).meta_count ∧
    (b.sync_counts).meta_offsets.length = (b.sync_counts).meta_count ∧
    (b.sync_counts).asset_offsets.length = (b.sync_counts).meta_count ∧
    (b.sync_counts).metas.length = (b.sync_counts).meta_count ∧
    (b.sync_counts).assets.length = (b.sync_counts).meta_count := by
  refine ⟨rfl, ?_, ?_, ?_, ?_, ?_⟩ <;>
    · simp only [Bars.sync_counts, List.length_take]
      omega

/-- C10 counterexample: with all five collections of length 1 but
`meta_count = 0`, the clamp yields 0, not the claimed minimum (1) of the five
collection lengths. -/
theorem c10_counterexample :
    (c10bars.sync_counts).meta_count = 0 ∧
    min (min (min (min c10bars.crc_hashes.length c10bars.meta_offsets.length)
      c10bars.asset_offsets.length) c10bars.metas.length) c10bars.assets.length = 1 ∧
    (0 : Nat) ≠ 1 := by decide

theorem buildAssetOffsets_length (cur : Int) (l : List Asset) :
    (buildAssetOffsets cur l).length = l.length := by
  induction l generalizing cur with
  | nil => rfl
  | cons a rest ih => simp [buildAssetOffsets, ih]

theorem buildAssetOffsets_step (cur : Int) (l : List Asset) (i : Nat) (ai : Asset) (o : Int)
    (ha : l.get? i = some ai) (ho : (buildAssetOffsets cur l).get? i = some o) :
    (buildAssetOffsets cur l).get? (i + 1) =
      (l.get? (i + 1)).map (fun _ => o + (pad_till (Asset.get_size ai) 64 : Int)) := by
  induction l generalizing cur i with
  | nil => simp at ha
  | cons a rest ih =>
    cases i with
    | zero =>
      simp only [List.get?] at ha ho
      cases ha
      cases ho
      cases rest with
      | nil => simp [buildAssetOffsets]
      | cons b rbs => simp [buildAssetOffsets]
    | succ j =>
      simp only [buildAssetOffsets, List.get?] at ha ho ⊢
      exact ih _ _ ha ho

/-- C2 (amended): serialization recomputes the asset offsets as a running sum
over ALL entries, with no deduplication: the first offset is the padded size
of header, tables, trailer blob and metadata records, and every following
offset advances the previous one by `pad_till(previous asset's size, 64)`. -/
theorem c2_asset_offsets_running_sum (b : Bars) :
    (b.calculate_offsets).asset_offsets.length = b.assets.length ∧
    (b.assets ≠ [] → (b.calculate_offsets).asset_offsets.head? =
      some (b.get_header_size b.meta_count : Int)) ∧
    (∀ i ai o, b.assets.get? i = some ai →
      (b.calculate_offsets).asset_offsets.get? i = some o →
      (b.calculate_offsets).asset_offsets.get? (i + 1) =
        (b.assets.get? (i + 1)).map (fun _ => o + (pad_till (Asset.get_size ai) 64 : Int))) := by
  refine ⟨?_, ?_, ?_⟩
  · simp [Bars.calculate_offsets, buildAssetOffsets_length]
  · intro hne
    cases hassets : b.assets with
    | nil => exact absurd hassets hne
    | cons a rest => simp [Bars.calculate_offsets, hassets, buildAssetOffsets]
  · intro i ai o ha ho
    simp only [Bars.calculate_offsets] at ho ⊢
    exact buildAssetOffsets_step _ _ _ _ _ ha ho

/-- Witness for C2 on `c2bars` at index 0. -/
theorem c2_asset_offsets_witness :
    (c2bars.calculate_offsets).asset_offsets.length = c2bars.assets.length ∧
    (c2bars.calculate_offsets).asset_offsets.head? =
      some (c2bars.get_header_size c2bars.meta_count : Int) ∧
    (c2bars.calculate_offsets).asset_offsets.get? 1 =
      (c2bars.assets.get? 1).map (fun _ => 64 + (pad_till (Asset.get_size rawA) 64 : Int)) := by
  have h := c2_asset_offsets_running_sum c2bars
  exact ⟨h.1, h.2.1 (by decide), h.2.2 0 rawA 64 (by decide) (by decide)⟩

/-- C2 counterexample: two entries referencing the SAME asset (equal asset
values and equal pre-existing offsets, i.e. an aliased pair) receive DISTINCT
offsets from `calculate_offsets`, so the recomputation is not a running sum
over unique assets and aliasing is not preserved. -/
theorem c2_alias_counterexample :
    c2bars.assets.get? 0 = c2bars.assets.get? 1 ∧
    c2bars.asset_offsets.get? 0 = c2bars.asset_offsets.get? 1 ∧
    (c2bars.calculate_offsets).asset_offsets.get? 0 = some 64 ∧
    (c2bars.calculate_offsets).asset_offsets.get? 1 = some 128 ∧
    (c2bars.calculate_offsets).asset_offsets.get? 0 ≠
      (c2bars.calculate_offsets).asset_offsets.get? 1 := by decide

instance : Std.Antisymm ((· : Int) ≤ ·) :=
  ⟨fun h1 h2 => Int.le_antisymm h1 h2⟩

theorem intMin?_eq_some_iff {xs : List Int} {a : Int} :
    xs.min? = some a ↔ a ∈ xs ∧ ∀ b, b ∈ xs → a ≤ b :=
  List.min?_eq_some_iff (fun x => le_refl x) (fun x y => min_choice x y)
    (fun _ _ _ => le_min_iff)

/-- C5 (amended): during parse, the read size supplied for an asset at a
first-occurrence offset is the distance from that offset to the SMALLEST
STRICTLY GREATER offset in the table; when no greater offset exists (the
greatest offset), it is the distance to the container's DECLARED total size —
not to the end of the input buffer — clamped below at zero. -/
theorem c5_asset_read_size_spec (all : List Int) (size : Nat) (off : Int) :
    (∀ m, (all.filter (fun o => off < o)).min? = some m →
      m ∈ all ∧ off < m ∧ (∀ o, o ∈ all → off < o → m ≤ o) ∧
      assetReadSize all size off = max 0 (m - off)) ∧
    ((all.filter (fun o => off < o)).min? = none →
      (∀ o, o ∈ all → ¬ off < o) ∧
      assetReadSize all size off = max 0 ((size : Int) - off)) := by
  constructor
  · intro m hm
    obtain ⟨hmem, hle⟩ := intMin?_eq_some_iff.1 hm
    have hmem' : m ∈ all ∧ off < m := by
      have := List.mem_filter.1 hmem
      exact ⟨this.1, by simpa using this.2⟩
    refine ⟨hmem'.1, hmem'.2, ?_, ?_⟩
    · intro o ho hlt
      exact hle o (List.mem_filter.2 ⟨ho, by simpa using hlt⟩)
    · simp [assetReadSize, hm]
  · intro hnone
    have hfil : all.filter (fun o => off < o) = [] := List.min?_eq_none_iff.1 hnone
    constructor
    · intro o ho hlt
      have : o ∈ all.filter (fun o => off < o) := List.mem_filter.2 ⟨ho, by simpa using hlt⟩
      simp [hfil] at this
    · simp [assetReadSize, hnone]

/-- Witness for C5: table `[10, 50, 30]`, offset 20, declared size 7; the
least strictly greater offset is 30 and the read size is 10. -/
theorem c5_asset_read_size_witness :
    (30 : Int) ∈ [(10 : Int), 50, 30] ∧ (20 : Int) < 30 ∧
    (∀ o, o ∈ [(10 : Int), 50, 30] → (20 : Int) < o → (30 : Int) ≤ o) ∧
    assetReadSize [10, 50, 30] 7 20 = max 0 (30 - 20) :=
  (c5_asset_read_size_spec [10, 50, 30] 7 20).1 30 (by decide)

/-- C5 counterexample: in `c5buf` the declared container size is 100 but the
buffer is 120 bytes long; the single asset at offset 90 is read with length
10 (declared size minus offset), not 30 (end of input file minus offset). -/
theorem c5_declared_size_counterexample :
    (barsParse c5buf).map (fun b => b.assets.map assetRawLen) = some [10] ∧
    (barsParse c5buf).map (fun b => b.size) = some 100 ∧
    c5buf.length = 120 ∧ ((10 : Nat) ≠ c5buf.length - 90) := by decide

/-- C6 (amended): a metadata record obtained from a parse carries the verbatim
byte span `buf[start : start+size]` (possibly shorter when the buffer ends
early); whenever that span is NON-EMPTY, `write` emits exactly the span, byte
for byte, and `get_size` returns its length. -/
theorem c6_parse_raw_roundtrip (buf : List Nat) (start p : Nat) (a : Amta)
    (h : amtaParse buf start = some a) (hne : subBytes buf start a.size ≠ []) :
    a.raw_bytes = some (subBytes buf start a.size) ∧
    Amta.write a p = subBytes buf start a.size ∧
    Amta.get_size a = (subBytes buf start a.size).length := by
  obtain ⟨b, _, hstamp⟩ := Option.map_eq_some'.1 h
  subst hstamp
  dsimp only at hne ⊢
  refine ⟨rfl, ?_, ?_⟩
  · dsimp only [Amta.write]
    simp [hne]
  · dsimp only [Amta.get_size]
    simp [hne]

/-- Witness for C6 at the 100-byte record `amtaSample`. -/
theorem c6_parse_raw_roundtrip_witness :
    amtaSampleParsed.raw_bytes = some (subBytes amtaSample 0 amtaSampleParsed.size) ∧
    Amta.write amtaSampleParsed 3 = subBytes amtaSample 0 amtaSampleParsed.size ∧
    Amta.get_size amtaSampleParsed = (subBytes amtaSample 0 amtaSampleParsed.size).length :=
  c6_parse_raw_roundtrip amtaSample 0 3 amtaSampleParsed (by decide) (by decide)

/-- C6 counterexample: a record parsed with declared size 0 carries the EMPTY
verbatim span; `write` does not emit that span (it synthesizes a fresh
44-byte record) and `get_size` returns 44, not the span's length 0. -/
theorem c6_zero_size_counterexample :
    (amtaParse amtaZeroSize 0).map Amta.raw_bytes = some (some []) ∧
    (amtaParse amtaZeroSize 0).map (fun a => Amta.write a 0) ≠ some [] ∧
    (amtaParse amtaZeroSize 0).map Amta.get_size = some 44 ∧ (44 : Nat) ≠ 0 := by decide

/-- C1 (code bug): `c1buf` is a parseable, self-consistent single-entry
container whose BWAV channel data starts at offset 200 instead of the
normalized `pad_till(92) = 128`.  `Bars.write` re-emits the samples at the
stale offset 200 while `get_size` accounts for the asset as if normalized
(202 bytes), so the declared size cuts the re-parsed asset short: the decoded
channel drops from 37 samples to 1.  Serialize-then-parse does NOT preserve
decoded samples. -/
theorem c1_roundtrip_sample_loss :
    c1pre = some [(List.range 37).map (fun i => (i : Int) + 1)] ∧
    c1post = some [[1]] ∧ c1pre ≠ c1post := by decide

/-- C3 (amended): when the name's 32-bit hash is already present in the hash
array, `add_or_replace_bwav` delegates to `replace_bwav` but reports `False`
REGARDLESS of the replacement's outcome; only when the hash is absent does it
insert, and then it reports `True`. -/
theorem c3_present_delegates (dec : List Nat → List Nat) (b : Bars)
    (name data : List Nat) (resize : Bool) :
    (calculate_crc32_hash name ∈ b.crc_hashes →
      Bars.add_or_replace_bwav dec b name data resize =
        (Bars.replace_bwav dec b name data resize).map (fun r => (false, r.2))) ∧
    (calculate_crc32_hash name ∉ b.crc_hashes →
      ∀ r, Bars.add_or_replace_bwav dec b name data resize = some r → r.1 = true) := by
  constructor
  · intro hmem
    simp [Bars.add_or_replace_bwav, hmem]
  · intro hmem r hr
    simp only [Bars.add_or_replace_bwav, hmem, if_neg, ite_false] at hr
    split at hr
    · exact Option.noConfusion hr
    split at hr
    · exact Option.noConfusion hr
    injection hr with hr2
    subst hr2
    rfl

/-- Witness for C3: the hash of "a" is present in `c3bars`. -/
theorem c3_present_delegates_witness :
    Bars.add_or_replace_bwav zeroDec c3bars [97] [9, 9, 9] false =
      (Bars.replace_bwav zeroDec c3bars [97] [9, 9, 9] false).map (fun r => (false, r.2)) :=
  (c3_present_delegates zeroDec c3bars [97] [9, 9, 9] false).1 (by decide)

/-- C3 counterexample: on `c3bars` the delegated replacement SUCCEEDS
(`replace_bwav` returns True) yet `add_or_replace_bwav` reports `False`; on
`c3barsB` the delegated replacement FAILS and `add_or_replace_bwav` also
reports `False` — the replacement's outcome is not reported. -/
theorem c3_outcome_not_reported_counterexample :
    (Bars.replace_bwav zeroDec c3bars [97] [9, 9, 9] false).map (·.1) = some true ∧
    (Bars.add_or_replace_bwav zeroDec c3bars [97] [9, 9, 9] false).map (·.1) = some false ∧
    (Bars.replace_bwav zeroDec c3barsB [97] [9, 9, 9] false).map (·.1) = some false ∧
    (Bars.add_or_replace_bwav zeroDec c3barsB [97] [9, 9, 9] false).map (·.1) = some false := by
  decide

/-- C4 counterexample: a PCM16 channel with `num_samples_this = 0x1000` (at
the sample budget) but only 10 bytes of data (below the 0x2000 byte budget)
IS truncated and the asset marked prefetch, yet its resulting sample-byte
size is 10, not the codec's byte budget 0x2000. -/
theorem c4_budget_counterexample :
    (Asset.convert_to_prefetch zeroDec (.bwav c4bwav)).map (·.1) = some true ∧
    (Asset.convert_to_prefetch zeroDec (.bwav c4bwav)).map (fun r => r.2.samplesLenAt 0) =
      some 10 ∧
    (Asset.convert_to_prefetch zeroDec (.bwav c4bwav)).map (fun r => r.2.prefetchFlag) =
      some true ∧
    ((10 : Nat) ≠ 0x2000) := by decide

theorem sorted_get?_le (a : List Nat) (hs : a.Sorted (· ≤ ·)) (i j u v : Nat)
    (hij : i ≤ j) (hu : a.get? i = some u) (hv : a.get? j = some v) : u ≤ v := by
  have hjlen : j < a.length := by
    by_contra hc
    rw [List.get?_eq_none.2 (by omega)] at hv
    exact Option.noConfusion hv
  have hilen : i < a.length := lt_of_le_of_lt hij hjlen
  rw [List.get?_eq_get hilen] at hu
  rw [List.get?_eq_get hjlen] at hv
  injection hu with hu2
  injection hv with hv2
  subst hu2
  subst hv2
  rcases Nat.eq_or_lt_of_le hij with heq | hlt
  · simp [heq]
  · exact List.pairwise_iff_get.1 hs ⟨i, hilen⟩ ⟨j, hjlen⟩ hlt

theorem bisectGo_bounds (a : List Nat) (x : Nat) (hs : a.Sorted (· ≤ ·)) :
    ∀ fuel lo hi, lo ≤ hi → hi ≤ a.length → hi - lo ≤ fuel →
    (∀ j v, j < lo → a.get? j = some v → v < x) →
    (∀ j v, hi ≤ j → a.get? j = some v → x ≤ v) →
    lo ≤ bisectGo a x fuel lo hi ∧ bisectGo a x fuel lo hi ≤ hi ∧
    (∀ j v, j < bisectGo a x fuel lo hi → a.get? j = some v → v < x) ∧
    (∀ j v, bisectGo a x fuel lo hi ≤ j → a.get? j = some v → x ≤ v) := by
  intro fuel
  induction fuel with
  | zero =>
    intro lo hi h1 h2 h3 hlo hhi
    have : lo = hi := by omega
    subst this
    exact ⟨le_refl _, le_refl _, hlo, hhi⟩
  | succ f ih =>
    intro lo hi h1 h2 h3 hlo hhi
    by_cases hlh : lo < hi
    · have hmid1 : lo ≤ (lo + hi) / 2 := by omega
      have hmid2 : (lo + hi) / 2 < hi := by omega
      have hmidlen : (lo + hi) / 2 < a.length := lt_of_lt_of_le hmid2 h2
      have hmval : a.get? ((lo + hi) / 2) = some (a.get ⟨(lo + hi) / 2, hmidlen⟩) :=
        List.get?_eq_get hmidlen
      have hval : a.getD ((lo + hi) / 2) 0 = a.get ⟨(lo + hi) / 2, hmidlen⟩ := by
        rw [List.getD_eq_get?, hmval]
        rfl
      by_cases hcmp : a.getD ((lo + hi) / 2) 0 < x
      · have hrw : bisectGo a x (f + 1) lo hi = bisectGo a x f ((lo + hi) / 2 + 1) hi := by
          simp only [bisectGo]
          rw [if_pos hlh, if_pos hcmp]
        rw [hrw]
        have hnew : ∀ j v, j < (lo + hi) / 2 + 1 → a.get? j = some v → v < x := by
          intro j v hj hv
          have hle : v ≤ a.getD ((lo + hi) / 2) 0 := by
            rw [hval]
            exact sorted_get?_le a hs j ((lo + hi) / 2) v _ (by omega) hv hmval
          omega
        obtain ⟨ha1, ha2, ha3, ha4⟩ :=
          ih ((lo + hi) / 2 + 1) hi (by omega) h2 (by omega) hnew hhi
        exact ⟨by omega, ha2, ha3, ha4⟩
      · have hrw : bisectGo a x (f + 1) lo hi = bisectGo a x f lo ((lo + hi) / 2) := by
          simp only [bisectGo]
          rw [if_pos hlh, if_neg hcmp]
        rw [hrw]
        have hnew : ∀ j v, (lo + hi) / 2 ≤ j → a.get? j = some v → x ≤ v := by
          intro j v hj hv
          have hge : a.getD ((lo + hi) / 2) 0 ≤ v := by
            rw [hval]
            exact sorted_get?_le a hs ((lo + hi) / 2) j _ v hj hmval hv
          omega
        obtain ⟨ha1, ha2, ha3, ha4⟩ :=
          ih lo ((lo + hi) / 2) hmid1 (le_of_lt hmidlen) (by omega) hlo hnew
        exact ⟨ha1, by omega, ha3, ha4⟩
    · have hrw : bisectGo a x (f + 1) lo hi = lo := by
        simp only [bisectGo]
        rw [if_neg hlh]
      rw [hrw]
      exact ⟨le_refl _, h1, hlo, fun j v hj hv => hhi j v (by omega) hv⟩

theorem bisect_left_bounds (a : List Nat) (x : Nat) (hs : a.Sorted (· ≤ ·)) :
    bisect_left a x ≤ a.length ∧
    (∀ j v, j < bisect_left a x → a.get? j = some v → v < x) ∧
    (∀ j v, bisect_left a x ≤ j → a.get? j = some v → x ≤ v) := by
  have h := bisectGo_bounds a x hs (a.length + 1) 0 a.length (by omega) (le_refl _) (by omega)
    (fun j v hj _ => absurd hj (Nat.not_lt_zero j))
    (fun j v hj hv => by
      rw [List.get?_eq_none.2 hj] at hv
      exact Option.noConfusion hv)
  exact ⟨h.2.1, h.2.2.1, h.2.2.2⟩

theorem pyInsert_sorted (l : List Nat) (x pos : Nat) (hs : l.Sorted (· ≤ ·))
    (hlt : ∀ j v, j < pos → l.get? j = some v → v ≤ x)
    (hge : ∀ j v, pos ≤ j → l.get? j = some v → x ≤ v) :
    (pyInsert l pos x).Sorted (· ≤ ·) := by
  unfold pyInsert
  rw [List.Sorted, List.pairwise_append]
  refine ⟨List.Pairwise.sublist (List.take_sublist _ _) hs, ?_, ?_⟩
  · rw [List.pairwise_cons]
    refine ⟨?_, List.Pairwise.sublist (List.drop_sublist _ _) hs⟩
    intro b hb
    obtain ⟨k, hk⟩ := List.mem_iff_get?.1 hb
    rw [List.get?_drop] at hk
    exact hge _ _ (by omega) hk
  · intro u hu y hy
    obtain ⟨k, hk⟩ := List.mem_iff_get?.1 hu
    have hklen : k < (l.take pos).length := by
      by_contra hc
      rw [List.get?_eq_none.2 (by omega)] at hk
      exact Option.noConfusion hk
    have hkpos : k < pos := by
      have := List.length_take pos l
      omega
    rw [List.get?_take hkpos] at hk
    have hux : u ≤ x := hlt _ _ hkpos hk
    rcases List.mem_cons.1 hy with rfl | hy2
    · exact hux
    · obtain ⟨k2, hk2⟩ := List.mem_iff_get?.1 hy2
      rw [List.get?_drop] at hk2
      exact le_trans hux (hge _ _ (by omega) hk2)

theorem pyInsert_length (l : List α) (pos : Nat) (x : α) :
    (pyInsert l pos x).length = l.length + 1 := by
  unfold pyInsert
  simp only [List.length_append, List.length_take, List.length_cons, List.length_drop]
  omega

theorem pyInsert_take (l : List α) (pos : Nat) (x : α) (h : pos ≤ l.length) :
    (pyInsert l pos x).take pos = l.take pos := by
  unfold pyInsert
  rw [List.take_append_of_le_length (by simp only [List.length_take]; omega)]
  rw [List.take_take]
  simp

theorem pyInsert_drop (l : List α) (pos : Nat) (x : α) (h : pos ≤ l.length) :
    (pyInsert l pos x).drop (pos + 1) = l.drop pos := by
  have hlen : (l.take pos).length = pos := by simp only [List.length_take]; omega
  have h1 : (pyInsert l pos x).drop pos = x :: l.drop pos := List.drop_left' hlen
  have h2 : (pyInsert l pos x).drop (pos + 1) = ((pyInsert l pos x).drop pos).drop 1 := by
    rw [List.drop_drop, Nat.add_comm]
  rw [h2, h1]
  rfl

/-- C7: inserting a fresh entry through `add_or_replace_bwav` places the new
hash at the `bisect_left` position of the (sorted) hash array, inserts the
new metadata and asset at the same position in their collections, increments
the entry count, and leaves the hash array sorted in ascending order. -/
theorem c7_insert_sorted (dec : List Nat → List Nat) (b : Bars) (name data : List Nat)
    (resize : Bool) (b' : Bars)
    (hs : b.crc_hashes.Sorted (· ≤ ·))
    (habs : calculate_crc32_hash name ∉ b.crc_hashes)
    (hm : b.metas.length = b.crc_hashes.length)
    (ha : b.assets.length = b.crc_hashes.length)
    (h : Bars.add_or_replace_bwav dec b name data resize = some (true, b')) :
    b'.crc_hashes =
      pyInsert b.crc_hashes (bisect_left b.crc_hashes (calculate_crc32_hash name))
        (calculate_crc32_hash name) ∧
    b'.crc_hashes.Sorted (· ≤ ·) ∧
    b'.meta_count = b.meta_count + 1 ∧
    b'.metas.length = b.metas.length + 1 ∧
    b'.assets.length = b.assets.length + 1 ∧
    b'.metas.take (bisect_left b.crc_hashes (calculate_crc32_hash name)) =
      b.metas.take (bisect_left b.crc_hashes (calculate_crc32_hash name)) ∧
    b'.metas.drop (bisect_left b.crc_hashes (calculate_crc32_hash name) + 1) =
      b.metas.drop (bisect_left b.crc_hashes (calculate_crc32_hash name)) ∧
    b'.assets.take (bisect_left b.crc_hashes (calculate_crc32_hash name)) =
      b.assets.take (bisect_left b.crc_hashes (calculate_crc32_hash name)) ∧
    b'.assets.drop (bisect_left b.crc_hashes (calculate_crc32_hash name) + 1) =
      b.assets.drop (bisect_left b.crc_hashes (calculate_crc32_hash name)) := by
  obtain ⟨hple, hplt, hpge⟩ := bisect_left_bounds b.crc_hashes (calculate_crc32_hash name) hs
  simp only [Bars.add_or_replace_bwav, habs, if_neg, ite_false] at h
  split at h
  · exact Option.noConfusion h
  split at h
  · exact Option.noConfusion h
  injection h with h2
  have hx := (Prod.ext_iff.1 h2).2
  subst hx
  dsimp only [Bars.calculate_offsets]
  refine ⟨rfl, ?_, rfl, ?_, ?_, ?_, ?_, ?_, ?_⟩
  · exact pyInsert_sorted _ _ _ hs (fun j v hj hv => le_of_lt (hplt j v hj hv)) hpge
  · exact pyInsert_length _ _ _
  · exact pyInsert_length _ _ _
  · exact pyInsert_take _ _ _ (by omega)
  · exact pyInsert_drop _ _ _ (by omega)
  · exact pyInsert_take _ _ _ (by omega)
  · exact pyInsert_drop _ _ _ (by omega)

/-- Witness for C7: inserting "a" (hash 0xE8B7BE43) into the sorted container
`c7bars` with hashes `[10, 20]`. -/
theorem c7_insert_sorted_witness :
    c7result.crc_hashes =
      pyInsert c7bars.crc_hashes (bisect_left c7bars.crc_hashes (calculate_crc32_hash [97]))
        (calculate_crc32_hash [97]) ∧
    c7result.crc_hashes.Sorted (· ≤ ·) ∧
    c7result.meta_count = c7bars.meta_count + 1 ∧
    c7result.metas.length = c7bars.metas.length + 1 ∧
    c7result.assets.length = c7bars.assets.length + 1 ∧
    c7result.metas.take (bisect_left c7bars.crc_hashes (calculate_crc32_hash [97])) =
      c7bars.metas.take (bisect_left c7bars.crc_hashes (calculate_crc32_hash [97])) ∧
    c7result.metas.drop (bisect_left c7bars.crc_hashes (calculate_crc32_hash [97]) + 1) =
      c7bars.metas.drop (bisect_left c7bars.crc_hashes (calculate_crc32_hash [97])) ∧
    c7result.assets.take (bisect_left c7bars.crc_hashes (calculate_crc32_hash [97])) =
      c7bars.assets.take (bisect_left c7bars.crc_hashes (calculate_crc32_hash [97])) ∧
    c7result.assets.drop (bisect_left c7bars.crc_hashes (calculate_crc32_hash [97]) + 1) =
      c7bars.assets.drop (bisect_left c7bars.crc_hashes (calculate_crc32_hash [97])) :=
  c7_insert_sorted zeroDec c7bars [97] [9] false c7result (by decide) (by decide)
    (by decide) (by decide) (by decide)

theorem adpcmFrames_not_reduced (src : List Nat) (coefs : List Int) (bl sl : Nat) :
    ∀ f i h1 h2 rem acc d,
    adpcmFrames src coefs bl sl f i h1 h2 rem acc = some (d, false) →
    adpcmFrames src coefs 0 0 f i h1 h2 rem acc = some (d, false) := by
  intro f
  induction f with
  | zero =>
    intro i h1 h2 rem acc d h
    simpa [adpcmFrames] using h
  | succ f ih =>
    intro i h1 h2 rem acc d h
    simp only [adpcmFrames] at h ⊢
    split at h
    · exact Option.noConfusion h
    split at h
    rotate_left
    · exact Option.noConfusion h
    split at h
    · exact Option.noConfusion h
    split at h
    · injection h with hpair
      exact absurd (congrArg Prod.snd hpair) (by simp)
    · rw [if_neg (by simp)]
      exact ih _ _ _ _ _ _ h

theorem opusPackets_not_reduced (dec : List Nat → List Nat) (src : List Nat) (bl : Nat) :
    ∀ f cur acc d, opusPackets dec src bl f cur acc = some (d, false) →
    opusPackets dec src 0 f cur acc = some (d, false) := by
  intro f
  induction f with
  | zero =>
    intro cur acc d h
    exact Option.noConfusion h
  | succ f ih =>
    intro cur acc d h
    simp only [opusPackets] at h ⊢
    by_cases hend : src.length ≤ cur
    · rw [if_pos hend] at h
      rw [if_pos hend]
      exact h
    · rw [if_neg hend] at h
      rw [if_neg hend]
      by_cases hsz : (subBytes src cur 4).length ≠ 4
      · rw [if_pos hsz] at h
        exact Option.noConfusion h
      · rw [if_neg hsz] at h
        rw [if_neg hsz]
        split at h
        · injection h with hpair
          exact absurd (congrArg Prod.snd hpair) (by simp)
        · rw [if_neg (by simp)]
          exact ih _ _ _ h

theorem decodeChannelCore_not_reduced (dec : List Nat → List Nat) (bom : Bom)
    (infos : List BwavChannelInfo) (samples : List (List Nat)) (idx limit : Nat)
    (d : List Int)
    (h : decodeChannelCore dec bom infos samples idx limit = some (d, false)) :
    decodeChannelCore dec bom infos samples idx 0 = some (d, false) := by
  simp only [decodeChannelCore] at h ⊢
  split at h
  rotate_left
  · exact Option.noConfusion h
  rename_i src ci heq1 heq2
  by_cases hc0 : ci.codec = 0
  · rw [if_pos hc0] at h
    rw [if_pos hc0]
    split at h
    · split at h
      · injection h with hpair
        exact absurd (congrArg Prod.snd hpair) (by simp)
      · exact Option.noConfusion h
    · rw [if_neg (by simp)]
      simpa using h
  · rw [if_neg hc0] at h
    rw [if_neg hc0]
    by_cases hc1 : ci.codec = 1
    · rw [if_pos hc1] at h
      rw [if_pos hc1]
      split at h
      · exact Option.noConfusion h
      · rename_i hcoef
        rw [if_neg hcoef]
        exact adpcmFrames_not_reduced _ _ _ _ _ _ _ _ _ _ _ h
    · rw [if_neg hc1] at h
      rw [if_neg hc1]
      by_cases hc2 : ci.codec = 2
      · rw [if_pos hc2] at h
        rw [if_pos hc2]
        split at h
        · exact Option.noConfusion h
        rename_i total reduced hopus
        split at h
        · rename_i heven
          injection h with hpair
          have htot := congrArg Prod.fst hpair
          have hred := congrArg Prod.snd hpair
          dsimp only at htot hred
          subst hred
          have hopus0 := opusPackets_not_reduced dec src (limit * 2) _ _ _ _ hopus
          rw [hopus0]
          dsimp only
          rw [if_pos heven, htot]
        · exact Option.noConfusion h
      · rw [if_neg hc2] at h
        rw [if_neg hc2]
        exact h

/-- C9: a `decode_channel` call with a positive sample limit that only
partially decodes (returns fewer samples than the full decode) leaves the
per-channel decode cache exactly as it was; only full decodes are stored. -/
theorem c9_partial_decode_not_cached (dec : List Nat → List Nat) (w : Bwav)
    (idx limit : Nat) (dst : List Int) (w' : Bwav) (dstF : List Int) (wF : Bwav)
    (hl : 0 < limit)
    (hc : w.decoded_channels.get? idx = some none)
    (h : Bwav.decode_channel dec w idx limit = some (dst, w'))
    (hF : Bwav.decode_channel dec w idx 0 = some (dstF, wF))
    (hlt : dst.length < dstF.length) :
    w'.decoded_channels = w.decoded_channels := by
  unfold Bwav.decode_channel at h hF
  by_cases hidx : w.header.num_channels ≤ idx
  · rw [if_pos hidx] at h
    exact Option.noConfusion h
  rw [if_neg hidx] at h hF
  simp only [hc] at h hF
  unfold bwavDecodeFresh at h hF
  cases hcore : decodeChannelCore dec w.header.bom w.channel_infos w.channel_samples idx limit with
  | none =>
    rw [hcore] at h
    exact Option.noConfusion h
  | some pr =>
    obtain ⟨d0, red⟩ := pr
    rw [hcore] at h
    dsimp only at h
    cases red with
    | true =>
      simp only [if_pos] at h
      injection h with hpair
      have hw := congrArg Prod.snd hpair
      dsimp only at hw
      subst hw
      rfl
    | false =>
      have hcore0 := decodeChannelCore_not_reduced dec w.header.bom w.channel_infos
        w.channel_samples idx limit d0 hcore
      rw [hcore0] at hF
      dsimp only at hF h
      injection h with hp1
      injection hF with hp2
      have hd1 := congrArg Prod.fst hp1
      have hd2 := congrArg Prod.fst hp2
      dsimp only at hd1 hd2
      rw [← hd1, ← hd2] at hlt
      exact absurd hlt (lt_irrefl _)

/-- Witness for C9: a two-sample PCM16 channel decoded with limit 1 returns
one sample (the full decode returns two) and the cache stays empty. -/
theorem c9_partial_decode_not_cached_witness :
    ((Bwav.decode_channel zeroDec c9bwav 0 1).getD ([], c9bwav)).2.decoded_channels =
      c9bwav.decoded_channels := by
  have hres := c9_partial_decode_not_cached zeroDec c9bwav 0 1 [1]
    ((Bwav.decode_channel zeroDec c9bwav 0 1).getD ([], c9bwav)).2 [1, 2]
    ({ c9bwav with decoded_channels := [some [1, 2]] })
    (by decide) (by decide) (by decide) (by decide) (by decide)
  exact hres

theorem get?_set_self (l : List α) (i : Nat) (a : α) (h : i < l.length) :
    (l.set i a).get? i = some a := by
  rw [List.get?_eq_getElem?]
  exact List.getElem?_set_self h

theorem get?_set_neq (l : List α) (i j : Nat) (a : α) (h : i ≠ j) :
    (l.set i a).get? j = l.get? j := by
  rw [List.get?_eq_getElem?, List.get?_eq_getElem?]
  exact List.getElem?_set_ne h

theorem bwavDecodeFresh_preserves (dec : List Nat → List Nat) (w : Bwav)
    (idx limit : Nat) (d : List Int) (w₁ : Bwav)
    (h : bwavDecodeFresh dec w idx limit = some (d, w₁)) :
    w₁.channel_infos = w.channel_infos ∧ w₁.channel_samples = w.channel_samples ∧
    w₁.header = w.header := by
  unfold bwavDecodeFresh at h
  split at h
  · exact Option.noConfusion h
  split at h
  · injection h with hp
    have hw := congrArg Prod.snd hp
    dsimp only at hw
    subst hw
    exact ⟨rfl, rfl, rfl⟩
  · injection h with hp
    have hw := congrArg Prod.snd hp
    dsimp only at hw
    subst hw
    exact ⟨rfl, rfl, rfl⟩

theorem decode_channel_preserves (dec : List Nat → List Nat) (w : Bwav)
    (idx limit : Nat) (d : List Int) (w₁ : Bwav)
    (h : Bwav.decode_channel dec w idx limit = some (d, w₁)) :
    w₁.channel_infos = w.channel_infos ∧ w₁.channel_samples = w.channel_samples ∧
    w₁.header = w.header := by
  unfold Bwav.decode_channel at h
  by_cases hidx : w.header.num_channels ≤ idx
  · rw [if_pos hidx] at h
    exact Option.noConfusion h
  rw [if_neg hidx] at h
  split at h
  · exact Option.noConfusion h
  · split at h
    · injection h with hp
      have hw := congrArg Prod.snd hp
      dsimp only at hw
      subst hw
      exact ⟨rfl, rfl, rfl⟩
    · exact bwavDecodeFresh_preserves dec w idx limit d w₁ h
  · exact bwavDecodeFresh_preserves dec w idx limit d w₁ h

theorem convCandidate_preserves (dec : List Nat → List Nat) (w : Bwav) (idx : Nat)
    (ci : BwavChannelInfo) (samp : List Nat) (req_b : Nat)
    (cand : List Nat) (w₁ : Bwav)
    (h : convCandidate dec w idx ci samp req_b = some (cand, w₁)) :
    w₁.channel_infos = w.channel_infos ∧ w₁.channel_samples = w.channel_samples ∧
    w₁.header = w.header := by
  unfold convCandidate at h
  split at h
  · split at h
    · exact Option.noConfusion h
    · rename_i d wd hdec
      obtain ⟨packed, hpk, hpair⟩ := Option.map_eq_some'.1 h
      have hw := congrArg Prod.snd hpair
      dsimp only at hw
      subst hw
      exact decode_channel_preserves dec w idx _ d wd hdec
  · injection h with hp
    have hw := congrArg Prod.snd hp
    dsimp only at hw
    subst hw
    exact ⟨rfl, rfl, rfl⟩

theorem convCandidate_of_ne2 (dec : List Nat → List Nat) (w : Bwav) (idx : Nat)
    (ci : BwavChannelInfo) (samp : List Nat) (req_b : Nat) (hne : ci.codec ≠ 2) :
    convCandidate dec w idx ci samp req_b = some (samp, w) := by
  unfold convCandidate
  rw [if_neg hne]

theorem get?_some_lt (l : List α) (i : Nat) (a : α) (h : l.get? i = some a) :
    i < l.length := by
  by_contra hc
  rw [List.get?_eq_none.2 (by omega)] at h
  exact Option.noConfusion h

theorem convGo_spec (dec : List Nat → List Nat) :
    ∀ fuel idx w conv res w',
    convGo dec fuel idx w conv = some (res, w') →
    w'.header = w.header ∧
    (conv = true → res = true) ∧
    (∀ j, j < idx → w'.channel_infos.get? j = w.channel_infos.get? j ∧
      w'.channel_samples.get? j = w.channel_samples.get? j) ∧
    (conv = false → res = false → w'.channel_infos = w.channel_infos ∧
      w'.channel_samples = w.channel_samples) ∧
    (∀ i ci samp req_s req_b, idx ≤ i → i < idx + fuel →
      w.channel_infos.get? i = some ci → w.channel_samples.get? i = some samp →
      ci.codec ≠ 2 → samplesBudget ci.codec = some req_s →
      bytesBudget ci.codec = some req_b →
      ((ci.num_samples_this < req_s ∧ samp.length < req_b) →
        w'.channel_infos.get? i = some ci ∧ w'.channel_samples.get? i = some samp) ∧
      (¬(ci.num_samples_this < req_s ∧ samp.length < req_b) →
        w'.channel_samples.get? i = some (samp.take req_b) ∧
        (w'.channel_infos.get? i).map (fun c => c.num_samples_this) = some req_s)) := by
  intro fuel
  induction fuel with
  | zero =>
    intro idx w conv res w' h
    simp only [convGo] at h
    injection h with hp
    have hr := congrArg Prod.fst hp
    have hw := congrArg Prod.snd hp
    dsimp only at hr hw
    subst hr
    subst hw
    refine ⟨rfl, fun hc => hc, fun j _ => ⟨rfl, rfl⟩, fun _ _ => ⟨rfl, rfl⟩, ?_⟩
    intro i ci samp req_s req_b hge hlt
    exact absurd hlt (by omega)
  | succ fuel ih =>
    intro idx w conv res w' h
    simp only [convGo] at h
    split at h
    rotate_left
    · exact Option.noConfusion h
    rename_i ci0 samp0 heqi heqs
    split at h
    rotate_left
    · exact Option.noConfusion h
    rename_i req_s0 req_b0 heqbs heqbb
    split at h
    · exact Option.noConfusion h
    rename_i cand w1 heqc
    obtain ⟨hp1, hp2, hp3⟩ := convCandidate_preserves dec w idx ci0 samp0 req_b0 cand w1 heqc
    split at h
    · rename_i hskip
      obtain ⟨ihH, ihConv, ihBelow, ihUnch, ihChan⟩ := ih (idx + 1) w1 conv res w' h
      refine ⟨ihH.trans hp3, ihConv, ?_, ?_, ?_⟩
      · intro j hj
        obtain ⟨e1, e2⟩ := ihBelow j (by omega)
        exact ⟨e1.trans (by rw [hp1]), e2.trans (by rw [hp2])⟩
      · intro hc hr
        obtain ⟨u1, u2⟩ := ihUnch hc hr
        exact ⟨u1.trans hp1, u2.trans hp2⟩
      · intro i ci samp req_s req_b hge hlt hgi hgs hcodec hbs hbb
        by_cases hii : i = idx
        · subst hii
          rw [heqi] at hgi
          injection hgi with hci
          subst hci
          rw [heqs] at hgs
          injection hgs with hsamp
          subst hsamp
          rw [heqbs] at hbs
          injection hbs with hrs
          subst hrs
          rw [heqbb] at hbb
          injection hbb with hrb
          subst hrb
          have hc2 := convCandidate_of_ne2 dec w i ci0 samp0 req_b0 hcodec
          rw [hc2] at heqc
          injection heqc with hcp
          have hcand := congrArg Prod.fst hcp
          have hw1 := congrArg Prod.snd hcp
          dsimp only at hcand hw1
          subst hcand
          subst hw1
          constructor
          · intro _
            obtain ⟨e1, e2⟩ := ihBelow i (by omega)
            exact ⟨e1.trans heqi, e2.trans heqs⟩
          · intro hcondN
            exact absurd hskip hcondN
        · have hgi1 : w1.channel_infos.get? i = some ci := by rw [hp1]; exact hgi
          have hgs1 : w1.channel_samples.get? i = some samp := by rw [hp2]; exact hgs
          exact ihChan i ci samp req_s req_b (by omega) (by omega) hgi1 hgs1 hcodec hbs hbb
    · rename_i hskipN
      split at h
      · exact Option.noConfusion h
      rename_i c0 heqc0
      obtain ⟨ihH, ihConv, ihBelow, ihUnch, ihChan⟩ := ih (idx + 1) _ true res w' h
      have hres : res = true := ihConv rfl
      refine ⟨?_, fun _ => hres, ?_, ?_, ?_⟩
      · exact ihH.trans hp3
      · intro j hj
        obtain ⟨e1, e2⟩ := ihBelow j (by omega)
        constructor
        · rw [e1]
          dsimp only
          rw [get?_set_neq _ _ _ _ (by omega), hp1]
        · rw [e2]
          dsimp only
          rw [get?_set_neq _ _ _ _ (by omega), hp2]
      · intro _ hr
        rw [hr] at hres
        exact Bool.noConfusion hres
      · intro i ci samp req_s req_b hge hlt hgi hgs hcodec hbs hbb
        by_cases hii : i = idx
        · subst hii
          rw [heqi] at hgi
          injection hgi with hci
          subst hci
          rw [heqs] at hgs
          injection hgs with hsamp
          subst hsamp
          rw [heqbs] at hbs
          injection hbs with hrs
          subst hrs
          rw [heqbb] at hbb
          injection hbb with hrb
          subst hrb
          have hc2 := convCandidate_of_ne2 dec w i ci0 samp0 req_b0 hcodec
          rw [hc2] at heqc
          injection heqc with hcp
          have hcand := congrArg Prod.fst hcp
          have hw1 := congrArg Prod.snd hcp
          dsimp only at hcand hw1
          subst hcand
          subst hw1
          constructor
          · intro hcondP
            exact absurd hcondP hskipN
          · intro _
            obtain ⟨e1, e2⟩ := ihBelow i (by omega)
            have hlenI : i < w.channel_infos.length := get?_some_lt _ _ _ heqi
            have hlenS : i < w.channel_samples.length := get?_some_lt _ _ _ heqs
            constructor
            · rw [e2]
              dsimp only
              exact get?_set_self _ _ _ hlenS
            · rw [e1]
              dsimp only
              rw [get?_set_self _ _ _ hlenI]
              rfl
        · have hgi1 : w1.channel_infos.get? i = some ci := by rw [hp1]; exact hgi
          have hgs1 : w1.channel_samples.get? i = some samp := by rw [hp2]; exact hgs
          have hgi2 : (w1.channel_infos.set idx { ci0 with
              num_samples_this := req_s0,
              absolute_start_samples_this :=
                c0.absolute_start_samples_this + idx * req_b0 }).get? i = some ci := by
            rw [get?_set_neq _ _ _ _ (by omega)]
            exact hgi1
          have hgs2 : (w1.channel_samples.set idx (cand.take req_b0)).get? i = some samp := by
            rw [get?_set_neq _ _ _ _ (by omega)]
            exact hgs1
          exact ihChan i ci samp req_s req_b (by omega) (by omega) hgi2 hgs2 hcodec hbs hbb

/-- C4 (amended): `convert_to_prefetch` is a no-op returning true on an asset
already marked prefetch and returns false for raw assets; when it returns
false the asset's header, channel infos and channel samples are unmodified;
when any channel converts, the prefetch flag is set.  A (PCM16 or DSP-ADPCM)
channel is truncated exactly when its sample count meets the codec's sample
budget OR its byte count meets the codec's byte budget, and the truncated
channel's byte size is `min(budget, previous size)` — the full byte budget
only when the previous size already reached it; skipped channels keep their
info and samples unchanged. -/
theorem c4_convert_to_prefetch_spec (dec : List Nat → List Nat) (a : Asset)
    (res : Bool) (a' : Asset)
    (h : Asset.convert_to_prefetch dec a = some (res, a')) :
    (∀ r, a = .raw r → res = false ∧ a' = a) ∧
    (∀ w, a = .bwav w → w.header.is_prefetch = true → res = true ∧ a' = a) ∧
    (∀ w, a = .bwav w → w.header.is_prefetch = false →
      ∀ w', a' = .bwav w' →
        (res = false → w'.channel_infos = w.channel_infos ∧
          w'.channel_samples = w.channel_samples ∧ w'.header = w.header) ∧
        (res = true → w'.header.is_prefetch = true) ∧
        (∀ i ci samp req_s req_b,
          w.channel_infos.get? i = some ci → w.channel_samples.get? i = some samp →
          ci.codec ≠ 2 → samplesBudget ci.codec = some req_s →
          bytesBudget ci.codec = some req_b →
          ((ci.num_samples_this < req_s ∧ samp.length < req_b) →
            w'.channel_infos.get? i = some ci ∧ w'.channel_samples.get? i = some samp) ∧
          (¬(ci.num_samples_this < req_s ∧ samp.length < req_b) →
            w'.channel_samples.get? i = some (samp.take req_b) ∧
            (samp.take req_b).length = min req_b samp.length ∧
            (w'.channel_infos.get? i).map (fun c => c.num_samples_this) = some req_s))) := by
  cases a with
  | raw r =>
    simp only [Asset.convert_to_prefetch] at h
    injection h with hp
    have hr := congrArg Prod.fst hp
    have ha := congrArg Prod.snd hp
    dsimp only at hr ha
    subst hr
    subst ha
    refine ⟨fun r' _ => ⟨rfl, rfl⟩, fun w hw => Asset.noConfusion hw, fun w hw => Asset.noConfusion hw⟩
  | bwav w0 =>
    simp only [Asset.convert_to_prefetch] at h
    by_cases hpf : w0.header.is_prefetch
    · rw [if_pos hpf] at h
      injection h with hp
      have hr := congrArg Prod.fst hp
      have ha := congrArg Prod.snd hp
      dsimp only at hr ha
      subst hr
      subst ha
      refine ⟨fun r hr => Asset.noConfusion hr, fun w hw _ => ⟨rfl, rfl⟩, ?_⟩
      intro w hw hpf'
      injection hw with hww
      subst hww
      rw [hpf] at hpf'
      exact Bool.noConfusion hpf'
    · rw [if_neg hpf] at h
      split at h
      · exact Option.noConfusion h
      rename_i conv0 wfin heqg
      injection h with hp
      have hr := congrArg Prod.fst hp
      have ha := congrArg Prod.snd hp
      dsimp only at hr ha
      subst hr
      subst ha
      obtain ⟨sH, _, _, sUnch, sChan⟩ :=
        convGo_spec dec w0.channel_infos.length 0 w0 false conv0 wfin heqg
      refine ⟨fun r hr => Asset.noConfusion hr, ?_, ?_⟩
      · intro w hw hpf'
        injection hw with hww
        subst hww
        rw [hpf'] at hpf
        exact absurd rfl hpf
      · intro w hw hpf2 w' ha'
        injection hw with hww
        subst hww
        cases conv0 with
        | false =>
          rw [if_neg Bool.false_ne_true] at ha'
          injection ha' with hw'
          subst hw'
          obtain ⟨u1, u2⟩ := sUnch rfl rfl
          refine ⟨fun _ => ⟨u1, u2, sH⟩, fun hc => Bool.noConfusion hc, ?_⟩
          intro i ci samp req_s req_b hgi hgs hcodec hbs hbb
          have hi : i < 0 + w0.channel_infos.length := by
            have := get?_some_lt _ _ _ hgi
            omega
          obtain ⟨cl1, cl2⟩ := sChan i ci samp req_s req_b (by omega) hi hgi hgs hcodec hbs hbb
          refine ⟨cl1, fun hn => ?_⟩
          obtain ⟨d1, d2⟩ := cl2 hn
          exact ⟨d1, by rw [List.length_take], d2⟩
        | true =>
          rw [if_pos rfl] at ha'
          injection ha' with hw'
          subst hw'
          refine ⟨fun hc => Bool.noConfusion hc, fun _ => rfl, ?_⟩
          intro i ci samp req_s req_b hgi hgs hcodec hbs hbb
          have hi : i < 0 + w0.channel_infos.length := by
            have := get?_some_lt _ _ _ hgi
            omega
          obtain ⟨cl1, cl2⟩ := sChan i ci samp req_s req_b (by omega) hi hgi hgs hcodec hbs hbb
          refine ⟨cl1, fun hn => ?_⟩
          obtain ⟨d1, d2⟩ := cl2 hn
          exact ⟨d1, by rw [List.length_take], d2⟩

/-- Witness for the amended C4 theorem on `c4bwav` with the zero decoder:
the conversion succeeds with result `true`, and the prefetch flag of the
resulting asset is set. -/
theorem c4_convert_to_prefetch_spec_witness :
    Asset.convert_to_prefetch zeroDec (.bwav c4bwav) = some (true, .bwav c4converted) ∧
    c4converted.header.is_prefetch = true :=
  ⟨by decide,
    ((c4_convert_to_prefetch_spec zeroDec (.bwav c4bwav) true (.bwav c4converted)
      (by decide)).2.2 c4bwav rfl (by decide) c4converted rfl).2.1 rfl⟩
